import Mathlib

/-! Turing: a shallow embedding of `turing.hpp` and `main.cpp`.

The C++ classes `Turing::Ram` and `Turing::Cpu` are embedded as pure functions
over explicit state.

* `uint8_t` values are natural numbers; every place where the C++ code narrows
  a wider value to eight bits (`mProgramCounter++`, the assignments to `mTmp`,
  `static_cast<uint8_t>`) carries an explicit `% 256`.
* `std::array<uint8_t, 0xFF>` is a list bundled with the proof that it has
  `0xFF` = 255 cells. `operator[]` of `std::array` and `std::vector` performs
  no bounds check, so an index outside the container has no defined behaviour:
  such a step yields `Outcome.undefined`.
* `throw std::runtime_error(MSG)` yields `Outcome.raised MSG s`, where `s` is
  the state at the moment of the throw.
* `std::cout` is modelled by returning the printed text.
* The two `for` loops run over a `uint8_t` counter; they are embedded with a
  fuel argument, and a loop that exhausts it yields `Outcome.outOfFuel`.
* A caller is a list of calls of the public operations of `Cpu` (`Cpu.calls`).
* The namespace `Spec` holds the dump format as the specification words it, to
  compare with the text the embedded `Ram::Dump` prints.
-/

set_option maxRecDepth 100000

namespace Turing

/-! ## Outcomes -/

/-- Result of running a piece of the program. -/
inductive Outcome (α : Type) where
  /-- Normal return with a value or state. -/
  | ok (a : α) : Outcome α
  /-- A `std::runtime_error` with message `msg` was thrown in state `a`. -/
  | raised (msg : String) (a : α) : Outcome α
  /-- An unchecked container index was out of range. -/
  | undefined : Outcome α
  /-- A loop did not finish within its fuel. -/
  | outOfFuel : Outcome α
  deriving DecidableEq, Repr

/-- The macro `#define ASSERT(EXPR, MSG) if (!(EXPR)) throw std::runtime_error(MSG);` -/
def ASSERT {σ : Type} (EXPR : Bool) (MSG : String) (s : σ) : Outcome σ :=
  if !EXPR then Outcome.raised MSG s else Outcome.ok s

/-! ## `class Ram` -/

/-- The class `Ram`: its only member is `std::array<uint8_t, 0xFF> mRegisters`. -/
structure Ram where
  /-- The 255 cells of the backing store. -/
  mRegisters : List Nat
  /-- The array type fixes the number of cells at `0xFF`. -/
  hsize : mRegisters.length = 0xFF
  deriving DecidableEq, Repr

namespace Ram

/-- The constructor `Ram() = default` with `mRegisters{}`: every cell is zero. -/
def fresh : Ram := ⟨List.replicate 0xFF 0, List.length_replicate 0xFF 0⟩

/-- A memory whose cells hold `bytes` from address 0 on and zero elsewhere: the
contents of a fresh memory after `bytes` has been written to it cell by cell. It
serves to state concrete executions. -/
def ofPrefix (bytes : List Nat) : Ram :=
  ⟨(bytes ++ List.replicate 0xFF 0).take 0xFF, by
    rw [List.length_take, List.length_append, List.length_replicate]; omega⟩

/-- The cell type is `uint8_t`: every cell of a memory in a running program holds a
value below 256. -/
def Bytes (r : Ram) : Prop := ∀ v ∈ r.mRegisters, v < 256

instance (r : Ram) : Decidable r.Bytes := by
  unfold Bytes
  infer_instance

/-- The content of cell `a` (zero for an address that is not a cell). -/
def byteAt (r : Ram) (a : Nat) : Nat := r.mRegisters.getD a 0

/-- The method `Ram::Read`:
`if (addr >= 0x0 && addr <= 0xFF) return mRegisters[addr]; return 0;` -/
def Read (r : Ram) (addr : Nat) : Outcome Nat :=
  if addr >= 0x0 ∧ addr <= 0xFF then
    match r.mRegisters[addr]? with
    | some v => Outcome.ok v
    | none => Outcome.undefined
  else
    Outcome.ok 0

/-- The method `Ram::Write`:
`if (addr >= 0x0 && addr <= 0xFF) mRegisters[addr] = data;` -/
def Write (r : Ram) (addr data : Nat) : Outcome Ram :=
  if addr >= 0x0 ∧ addr <= 0xFF then
    if addr < r.mRegisters.length then
      Outcome.ok ⟨r.mRegisters.set addr data, by rw [List.length_set]; exact r.hsize⟩
    else
      Outcome.undefined
  else
    Outcome.ok r

/-- Text of `std::bitset<8>(v)` sent to a stream: eight characters, bit 7 first. -/
def bitset8 (v : Nat) : String :=
  String.mk ([7, 6, 5, 4, 3, 2, 1, 0].map fun i => if v.testBit i then '1' else '0')

/-- One line of `Ram::Dump`:
`std::bitset<8>(mRegisters[addr]) << ' ' << static_cast<int>(addr) << '\n'`. -/
def dumpLine (v addr : Nat) : String :=
  bitset8 v ++ " " ++ toString addr ++ "\n"

/-- The loop of `Ram::Dump`:
`for (uint8_t addr = from; addr < to; addr++) std::cout << ... mRegisters[addr] ...`
(`from_`, `to_` stand for the parameters `from`, `to`). The first argument is
the fuel; the result is the text printed by the loop. -/
def dumpLoop (r : Ram) (to_ : Nat) : Nat → Nat → Outcome String
  | 0, addr => if addr < to_ then Outcome.outOfFuel else Outcome.ok ""
  | fuel + 1, addr =>
    if addr < to_ then
      match r.mRegisters[addr]? with
      | none => Outcome.undefined
      | some v =>
        match dumpLoop r to_ fuel ((addr + 1) % 256) with
        | Outcome.ok rest => Outcome.ok (dumpLine v addr ++ rest)
        | Outcome.raised msg rest => Outcome.raised msg (dumpLine v addr ++ rest)
        | Outcome.undefined => Outcome.undefined
        | Outcome.outOfFuel => Outcome.outOfFuel
    else
      Outcome.ok ""

/-- The method `Ram::Dump`: the loop, then `std::cout << '\n'`. A `uint8_t`
counter takes at most 256 values, which is the fuel given to the loop. -/
def Dump (r : Ram) (from_ to_ : Nat) : Outcome String :=
  match dumpLoop r to_ 256 from_ with
  | Outcome.ok lines => Outcome.ok (lines ++ "\n")
  | Outcome.raised msg lines => Outcome.raised msg lines
  | Outcome.undefined => Outcome.undefined
  | Outcome.outOfFuel => Outcome.outOfFuel

end Ram

/-! ## `class Cpu` -/

/-- The class `Cpu`. The reference member `Ram &mRam` is embedded as the value of
the referenced object, so that a `Cpu` value is the whole machine state. The
constant member `mInstructions` is the definition `Cpu.mInstructions` below. -/
structure Cpu where
  /-- The memory the processor is bound to (`Ram &mRam`). -/
  mRam : Ram
  /-- Member `uint8_t mRegisterX{}`. -/
  mRegisterX : Nat
  /-- Member `uint8_t mRegisterY{}`. -/
  mRegisterY : Nat
  /-- Member `bool mOverflow{}`. -/
  mOverflow : Bool
  /-- Member `bool mUnderflow{}`. -/
  mUnderflow : Bool
  /-- Member `uint8_t mFetched{}`. -/
  mFetched : Nat
  /-- Member `uint8_t mStackPointer{}`. -/
  mStackPointer : Nat
  /-- Member `uint8_t mProgramCounter{}`. -/
  mProgramCounter : Nat
  /-- Member `uint8_t mOpCode{}`. -/
  mOpCode : Nat
  /-- Member `uint8_t mTmp{}`. -/
  mTmp : Nat
  deriving DecidableEq, Repr

namespace Cpu

/-- The constructor `explicit Cpu(Ram &ram) : mRam(ram) {}`: every other member is
value-initialised. -/
def fresh (ram : Ram) : Cpu :=
  { mRam := ram, mRegisterX := 0, mRegisterY := 0, mOverflow := false, mUnderflow := false,
    mFetched := 0, mStackPointer := 0, mProgramCounter := 0, mOpCode := 0, mTmp := 0 }

/-- The method `Cpu::Fetch`: `mFetched = mRam.Read(mStackPointer);` -/
def Fetch (c : Cpu) : Outcome Cpu :=
  match c.mRam.Read c.mStackPointer with
  | Outcome.ok v => Outcome.ok { c with mFetched := v }
  | Outcome.raised msg _ => Outcome.raised msg c
  | Outcome.undefined => Outcome.undefined
  | Outcome.outOfFuel => Outcome.outOfFuel

/-- The method `Cpu::Dump`: nine labelled lines with the members as decimal integers
(`static_cast<int>`; a `bool` prints as 0 or 1), then an empty line. -/
def Dump (c : Cpu) : String :=
  "Register X: " ++ toString c.mRegisterX ++ "\n"
    ++ "Register Y: " ++ toString c.mRegisterY ++ "\n"
    ++ "Overflow: " ++ toString c.mOverflow.toNat ++ "\n"
    ++ "Underflow: " ++ toString c.mUnderflow.toNat ++ "\n"
    ++ "Fetched: " ++ toString c.mFetched ++ "\n"
    ++ "Stack Pointer: " ++ toString c.mStackPointer ++ "\n"
    ++ "Program Counter: " ++ toString c.mProgramCounter ++ "\n"
    ++ "Op Code: " ++ toString c.mOpCode ++ "\n"
    ++ "Tmp: " ++ toString c.mTmp ++ "\n"
    ++ "\n"

/-- The handler `Cpu::LDX`: `Fetch(); mRegisterX = mFetched;` -/
def LDX (c : Cpu) : Outcome Cpu :=
  match c.Fetch with
  | Outcome.ok c1 => Outcome.ok { c1 with mRegisterX := c1.mFetched }
  | other => other

/-- The handler `Cpu::LDY`: `Fetch(); mRegisterY = mFetched;` -/
def LDY (c : Cpu) : Outcome Cpu :=
  match c.Fetch with
  | Outcome.ok c1 => Outcome.ok { c1 with mRegisterY := c1.mFetched }
  | other => other

/-- The handler `Cpu::STX`: `mRam.Write(mStackPointer, mRegisterX);` -/
def STX (c : Cpu) : Outcome Cpu :=
  match c.mRam.Write c.mStackPointer c.mRegisterX with
  | Outcome.ok ram => Outcome.ok { c with mRam := ram }
  | Outcome.raised msg ram => Outcome.raised msg { c with mRam := ram }
  | Outcome.undefined => Outcome.undefined
  | Outcome.outOfFuel => Outcome.outOfFuel

/-- The handler `Cpu::STY`: `mRam.Write(mStackPointer, mRegisterY);` -/
def STY (c : Cpu) : Outcome Cpu :=
  match c.mRam.Write c.mStackPointer c.mRegisterY with
  | Outcome.ok ram => Outcome.ok { c with mRam := ram }
  | Outcome.raised msg ram => Outcome.raised msg { c with mRam := ram }
  | Outcome.undefined => Outcome.undefined
  | Outcome.outOfFuel => Outcome.outOfFuel

/-- The handler `Cpu::ADD`:
`mTmp = mRegisterX + mRegisterY; if (mTmp > 0xFF) mOverflow = true;`
The sum is computed in `int` and narrowed to the `uint8_t` member `mTmp`. -/
def ADD (c : Cpu) : Outcome Cpu :=
  let c1 := { c with mTmp := (c.mRegisterX + c.mRegisterY) % 256 }
  if c1.mTmp > 0xFF then Outcome.ok { c1 with mOverflow := true } else Outcome.ok c1

/-- The handler `Cpu::SUB`:
`mTmp = mRegisterX - mRegisterY; if (mTmp < 0x0) mUnderflow = true;`
The difference is computed in `int` (it may be negative) and narrowed to the
`uint8_t` member `mTmp`; the comparison reads `mTmp` back as an `int`. -/
def SUB (c : Cpu) : Outcome Cpu :=
  let c1 := { c with mTmp := (((c.mRegisterX : Int) - (c.mRegisterY : Int)) % 256).toNat }
  if (c1.mTmp : Int) < 0x0 then Outcome.ok { c1 with mUnderflow := true } else Outcome.ok c1

/-- The handler `Cpu::JMP`: `mProgramCounter = mStackPointer;` -/
def JMP (c : Cpu) : Outcome Cpu :=
  Outcome.ok { c with mProgramCounter := c.mStackPointer }

/-- The nested `struct Instruction`: a name and a member-function pointer, which is
`nullptr` (`none`) when the entry has no operation. -/
structure Instruction where
  /-- Mnemonic. -/
  Name : String
  /-- Handler, or `none` for `nullptr`. -/
  Operation : Option (Cpu → Outcome Cpu)

/-- The member `std::vector<Instruction> mInstructions`: eight entries, never modified. -/
def mInstructions : List Instruction :=
  [ ⟨"NOP", none⟩,
    ⟨"LDX", some LDX⟩,
    ⟨"LDY", some LDY⟩,
    ⟨"STX", some STX⟩,
    ⟨"STY", some STY⟩,
    ⟨"ADD", some ADD⟩,
    ⟨"SUB", some SUB⟩,
    ⟨"JMP", some JMP⟩ ]

/-- The method `Cpu::Clock`:
`mOpCode = mRam.Read(mProgramCounter); mProgramCounter++;`
`if (mInstructions[mOpCode].Operation) (this->*mInstructions[mOpCode].Operation)();` -/
def Clock (c : Cpu) : Outcome Cpu :=
  match c.mRam.Read c.mProgramCounter with
  | Outcome.ok v =>
    let c1 := { c with mOpCode := v }
    let c2 := { c1 with mProgramCounter := (c1.mProgramCounter + 1) % 256 }
    match mInstructions[c2.mOpCode]? with
    | none => Outcome.undefined
    | some instruction =>
      match instruction.Operation with
      | none => Outcome.ok c2
      | some operation => operation c2
  | Outcome.raised msg _ => Outcome.raised msg c
  | Outcome.undefined => Outcome.undefined
  | Outcome.outOfFuel => Outcome.outOfFuel

/-- The loading loop of `Cpu::Run`:
`for (uint8_t addr = 0x0; addr < size; addr++) mRam.Write(addr, program[addr]);`
The first argument is the fuel; `program[addr]` is an unchecked `std::vector` index. -/
def runLoop (program : List Nat) (size : Nat) : Nat → Nat → Ram → Outcome Ram
  | 0, addr, ram => if addr < size then Outcome.outOfFuel else Outcome.ok ram
  | fuel + 1, addr, ram =>
    if addr < size then
      match program[addr]? with
      | none => Outcome.undefined
      | some b =>
        match ram.Write addr b with
        | Outcome.ok ram1 => runLoop program size fuel ((addr + 1) % 256) ram1
        | other => other
    else
      Outcome.ok ram

/-- The method `Cpu::Run`:
`ASSERT(0x10 > program.size(), "Program max size 0x10")`
`auto size = static_cast<uint8_t>(program.size());`
the loading loop, `mRam.Dump(0x0, size); Dump();`.
The result pairs the machine state with the text printed. -/
def Run (c : Cpu) (program : List Nat) : Outcome (Cpu × String) :=
  match ASSERT (decide (0x10 > program.length)) "Program max size 0x10" (c, "") with
  | Outcome.ok _ =>
    let size := program.length % 256
    match runLoop program size 256 0x0 c.mRam with
    | Outcome.ok ram =>
      let c1 := { c with mRam := ram }
      match c1.mRam.Dump 0x0 size with
      | Outcome.ok text => Outcome.ok (c1, text ++ c1.Dump)
      | Outcome.raised msg text => Outcome.raised msg (c1, text)
      | Outcome.undefined => Outcome.undefined
      | Outcome.outOfFuel => Outcome.outOfFuel
    | Outcome.raised msg ram => Outcome.raised msg ({ c with mRam := ram }, "")
    | Outcome.undefined => Outcome.undefined
    | Outcome.outOfFuel => Outcome.outOfFuel
  | other => other

/-- The caller invoking `Clock()` `n` times in a row; the first call that does not
return normally ends the sequence. -/
def clockTimes : Nat → Cpu → Outcome Cpu
  | 0, c => Outcome.ok c
  | n + 1, c =>
    match c.Clock with
    | Outcome.ok c1 => clockTimes n c1
    | other => other

/-- The public operations of `Cpu` a caller can invoke. -/
inductive Call where
  /-- A call `Run(program)`. -/
  | Run (program : List Nat) : Call
  /-- A call `Clock()`. -/
  | Clock : Call
  /-- A call `Fetch()`. -/
  | Fetch : Call
  /-- A call `Dump()`. -/
  | Dump : Call
  deriving DecidableEq, Repr

/-- One call of a public operation: the outcome carries the machine state and the text
printed by the call. -/
def call (c : Cpu) : Call → Outcome (Cpu × String)
  | Call.Run program => c.Run program
  | Call.Clock =>
    match c.Clock with
    | Outcome.ok c1 => Outcome.ok (c1, "")
    | Outcome.raised msg c1 => Outcome.raised msg (c1, "")
    | Outcome.undefined => Outcome.undefined
    | Outcome.outOfFuel => Outcome.outOfFuel
  | Call.Fetch =>
    match c.Fetch with
    | Outcome.ok c1 => Outcome.ok (c1, "")
    | Outcome.raised msg c1 => Outcome.raised msg (c1, "")
    | Outcome.undefined => Outcome.undefined
    | Outcome.outOfFuel => Outcome.outOfFuel
  | Call.Dump => Outcome.ok (c, c.Dump)

/-- A caller invoking public operations one after the other; the first call that does
not return normally ends the sequence (a throw leaves the state it carries, which
for `Run` is the state before the call). -/
def calls : List Call → Cpu → Outcome Cpu
  | [], c => Outcome.ok c
  | op :: ops, c =>
    match c.call op with
    | Outcome.ok (c1, _) => calls ops c1
    | Outcome.raised msg (c1, _) => Outcome.raised msg c1
    | Outcome.undefined => Outcome.undefined
    | Outcome.outOfFuel => Outcome.outOfFuel

end Cpu

/-- The program assembled in `main`: `LDX, 1, LDY, 2, ADD`. -/
def mainProgram : List Nat := [0x1, 1, 0x2, 2, 0x5]

/-- The function `main`: `Ram ram{}; Cpu{ram}.Run(program);` -/
def main : Outcome (Cpu × String) := (Cpu.fresh Ram.fresh).Run mainProgram

/-! ## The dump format as the specification words it -/

namespace Spec

/-- Specification of the binary column of a memory dump line: the binary digits of the
byte, most significant first, padded with zeros on the left to eight characters. -/
def binary8 (v : Nat) : String :=
  String.mk (List.replicate (8 - (Nat.toDigits 2 v).length) '0' ++ Nat.toDigits 2 v)

/-- Specification of one memory dump line: the eight-character binary form of the
byte, one space, the decimal address, a newline. -/
def dumpLine (v a : Nat) : String :=
  binary8 v ++ " " ++ toString a ++ "\n"

/-- Concatenation of a list of texts, in order. -/
def concat : List String → String
  | [] => ""
  | s :: rest => s ++ concat rest

/-- Specification of the memory dump of `[from_, to_)`: one line per address in
ascending order, then one blank line. `byteAt a` is the byte stored at address `a`. -/
def dumpText (byteAt : Nat → Nat) (from_ to_ : Nat) : String :=
  concat ((List.range' from_ (to_ - from_)).map fun a => dumpLine (byteAt a) a) ++ "\n"

end Spec

/-! ## Memory: reads and writes -/

namespace Ram

/-- A read inside the backing store returns the cell. -/
theorem Read_of_lt (r : Ram) (a : Nat) (ha : a < 0xFF) :
    r.Read a = Outcome.ok (r.mRegisters.get ⟨a, by rw [r.hsize]; exact ha⟩) := by
  have hlen : a < r.mRegisters.length := by rw [r.hsize]; exact ha
  have hle : a ≤ 255 := by omega
  simp [Read, hle, List.getElem?_eq_getElem hlen]

/-- A read inside the backing store, in terms of the optional lookup. -/
theorem Read_eq_ok_iff (r : Ram) (a v : Nat) (ha : a < 0xFF) :
    r.Read a = Outcome.ok v ↔ r.mRegisters[a]? = some v := by
  have hlen : a < r.mRegisters.length := by rw [r.hsize]; exact ha
  have hle : a ≤ 255 := by omega
  simp [Read, hle, List.getElem?_eq_getElem hlen]

/-- A write inside the backing store succeeds and replaces exactly that cell. -/
theorem Write_of_lt (r : Ram) (a v : Nat) (ha : a < 0xFF) :
    ∃ r1 : Ram, r.Write a v = Outcome.ok r1 ∧ r1.mRegisters = r.mRegisters.set a v := by
  have hlen : a < r.mRegisters.length := by rw [r.hsize]; exact ha
  have hle : a ≤ 255 := by omega
  exact ⟨⟨r.mRegisters.set a v, by rw [List.length_set]; exact r.hsize⟩,
    by simp [Write, hle, hlen], rfl⟩

/-- Address `0xFF` passes the guard `addr <= 0xFF` of `Read` and `Write` but is not
a cell of the 255-cell array. -/
theorem getElem?_0xFF (r : Ram) : r.mRegisters[0xFF]? = none := by
  rw [List.getElem?_eq_none_iff, r.hsize]

/-- A write inside the backing store leaves every other cell as it was. -/
theorem Write_frame (r r1 : Ram) (a v b : Nat) (ha : a < 0xFF) (hb : b ≠ a)
    (hw : r.Write a v = Outcome.ok r1) : r1.mRegisters[b]? = r.mRegisters[b]? := by
  obtain ⟨r2, h2, hset⟩ := Write_of_lt r a v ha
  rw [h2] at hw
  cases hw
  rw [hset, List.getElem?_set_ne (Ne.symm hb)]

/-- C1: for every RAM state, every valid address `a` (0x00..0xFE) and every value
`v`, `Write(a, v)` returns normally and a following `Read(a)` returns `v`. -/
theorem C1_write_then_read (r : Ram) (a v : Nat) (ha : a ≤ 0xFE) :
    ∃ r1 : Ram, r.Write a v = Outcome.ok r1 ∧ r1.Read a = Outcome.ok v := by
  have hlt : a < 0xFF := by omega
  obtain ⟨r1, hw, hset⟩ := Write_of_lt r a v hlt
  refine ⟨r1, hw, ?_⟩
  rw [Read_eq_ok_iff r1 a v hlt, hset]
  have hlen : a < r.mRegisters.length := by rw [r.hsize]; exact hlt
  simp [hlen]

/-- Witness of C1: on the all-zero memory, writing 7 to address 0xFE and reading it
back. -/
theorem C1_write_then_read_witness :
    0xFE ≤ 0xFE ∧
      ∃ r1 : Ram, fresh.Write 0xFE 7 = Outcome.ok r1 ∧ r1.Read 0xFE = Outcome.ok 7 :=
  ⟨Nat.le_refl _, C1_write_then_read fresh 0xFE 7 (Nat.le_refl _)⟩

/-- A read at address `0xFF` indexes past the last cell. -/
theorem Read_0xFF (r : Ram) : r.Read 0xFF = Outcome.undefined := by
  simp [Read, getElem?_0xFF]

/-- C2 (the code at the failing address): for every RAM state and every value `v`,
`Read(0xFF)` and `Write(0xFF, v)` pass the guard `addr <= 0xFF` and index cell 255
of the 255-cell array, which does not exist: neither returns 0 nor is a no-op. -/
theorem C2_read_write_0xFF_out_of_bounds (r : Ram) (v : Nat) :
    r.Read 0xFF = Outcome.undefined ∧ r.Write 0xFF v = Outcome.undefined := by
  constructor
  · exact Read_0xFF r
  · simp [Write, r.hsize]

/-- The loop of `Dump` returns normally whenever the upper bound is a cell count
(`to_ ≤ 0xFF`) and the fuel covers the remaining addresses. -/
theorem dumpLoop_ok (r : Ram) (to_ : Nat) (hto : to_ ≤ 0xFF) :
    ∀ fuel addr : Nat, to_ - addr ≤ fuel → ∃ text : String, dumpLoop r to_ fuel addr = Outcome.ok text := by
  intro fuel
  induction fuel with
  | zero =>
    intro addr hfuel
    have hnot : ¬ addr < to_ := by omega
    exact ⟨"", by simp [dumpLoop, hnot]⟩
  | succ fuel ih =>
    intro addr hfuel
    by_cases hlt : addr < to_
    · have hlen : addr < r.mRegisters.length := by rw [r.hsize]; omega
      have hnext : (addr + 1) % 256 = addr + 1 := Nat.mod_eq_of_lt (by omega)
      obtain ⟨rest, hrest⟩ := ih (addr + 1) (by omega)
      exact ⟨dumpLine (r.mRegisters.get ⟨addr, hlen⟩) addr ++ rest, by
        simp [dumpLoop, hlt, List.getElem?_eq_getElem hlen, hnext, hrest]⟩
    · exact ⟨"", by simp [dumpLoop, hlt]⟩

/-- The method `Dump` returns normally whenever `to_ ≤ 0xFF`. -/
theorem Dump_ok (r : Ram) (from_ to_ : Nat) (hto : to_ ≤ 0xFF) :
    ∃ text : String, r.Dump from_ to_ = Outcome.ok text := by
  obtain ⟨lines, hlines⟩ := dumpLoop_ok r to_ hto 256 from_ (by omega)
  exact ⟨lines ++ "\n", by simp [Dump, hlines]⟩

end Ram

/-! ## Processor: loading a program -/

namespace Cpu

/-- The loading loop returns normally and stores `program[i]` at every address `i` it
still has to visit, leaving all other cells as they were. -/
theorem runLoop_spec (program : List Nat) (size : Nat) (hprog : size ≤ program.length)
    (hsize : size ≤ 0xFF) :
    ∀ (fuel addr : Nat) (ram : Ram), addr ≤ size → size - addr ≤ fuel →
      ∃ ram1 : Ram, runLoop program size fuel addr ram = Outcome.ok ram1 ∧
        (∀ i : Nat, addr ≤ i → i < size → ram1.mRegisters[i]? = program[i]?) ∧
        (∀ i : Nat, i < addr ∨ size ≤ i → ram1.mRegisters[i]? = ram.mRegisters[i]?) := by
  intro fuel
  induction fuel with
  | zero =>
    intro addr ram hle hfuel
    have hnot : ¬ addr < size := by omega
    exact ⟨ram, by simp [runLoop, hnot], fun i h1 h2 => absurd h2 (by omega), fun _ _ => rfl⟩
  | succ fuel ih =>
    intro addr ram hle hfuel
    by_cases hlt : addr < size
    · have hplen : addr < program.length := by omega
      have hnext : (addr + 1) % 256 = addr + 1 := Nat.mod_eq_of_lt (by omega)
      have haddr : addr < 0xFF := by omega
      obtain ⟨ram1, hw, hset⟩ := Ram.Write_of_lt ram addr program[addr] haddr
      obtain ⟨ram2, hrun, hin, hout⟩ := ih (addr + 1) ram1 (by omega) (by omega)
      refine ⟨ram2, by simp [runLoop, hlt, List.getElem?_eq_getElem hplen, hw, hnext, hrun], ?_, ?_⟩
      · intro i h1 h2
        by_cases hi : i = addr
        · subst hi
          have hrlen : i < ram.mRegisters.length := by rw [ram.hsize]; exact haddr
          rw [hout i (Or.inl (by omega)), hset, List.getElem?_eq_getElem hplen]
          simp [hrlen]
        · exact hin i (by omega) h2
      · intro i hi
        have hne : i ≠ addr := by omega
        rw [hout i (by omega), hset, List.getElem?_set_ne (Ne.symm hne)]
    · exact ⟨ram, by simp [runLoop, hlt], fun i h1 h2 => absurd h2 (by omega), fun _ _ => rfl⟩

/-- A program of at most 15 bytes: `Run` returns normally, changes nothing but the
memory, stores byte `i` of the program in cell `i`, leaves the cells from the
program length on as they were, and prints the memory dump of the loaded range
followed by the processor dump. -/
theorem Run_spec (c : Cpu) (program : List Nat) (hlen : program.length ≤ 15) :
    ∃ (ram1 : Ram) (text : String),
      c.Run program = Outcome.ok ({ c with mRam := ram1 }, text) ∧
      (∀ i : Nat, i < program.length → ram1.mRegisters[i]? = program[i]?) ∧
      (∀ i : Nat, program.length ≤ i → ram1.mRegisters[i]? = c.mRam.mRegisters[i]?) := by
  have hmod : program.length % 256 = program.length := Nat.mod_eq_of_lt (by omega)
  obtain ⟨ram1, hrun, hin, hout⟩ :=
    runLoop_spec program program.length (Nat.le_refl _) (by omega) 256 0 c.mRam
      (Nat.zero_le _) (by omega)
  obtain ⟨text, htext⟩ := Ram.Dump_ok ram1 0 program.length (by omega)
  have hassert : 0x10 > program.length := by omega
  refine ⟨ram1, text ++ ({ c with mRam := ram1 } : Cpu).Dump, ?_, ?_, ?_⟩
  · simp [Run, ASSERT, hassert, hmod, hrun, htext]
  · intro i hi
    exact hin i (Nat.zero_le _) hi
  · intro i hi
    exact hout i (Or.inr hi)

/-- C3: for every program of length at least 16 and every starting state, `Run`
throws the length error at once; the state at the throw is the starting state
(memory and registers untouched) and nothing has been printed. -/
theorem C3_run_too_long_raises (c : Cpu) (program : List Nat) (hlen : 16 ≤ program.length) :
    c.Run program = Outcome.raised "Program max size 0x10" (c, "") := by
  have hassert : ¬ 0x10 > program.length := by omega
  simp [Run, ASSERT, hassert]

/-- Witness of C3: a program of sixteen zero bytes on the fresh machine. -/
theorem C3_run_too_long_raises_witness :
    16 ≤ (List.replicate 16 0).length ∧
      (fresh Ram.fresh).Run (List.replicate 16 0)
        = Outcome.raised "Program max size 0x10" (fresh Ram.fresh, "") :=
  ⟨by decide, C3_run_too_long_raises (fresh Ram.fresh) (List.replicate 16 0) (by decide)⟩

/-- C4: for every program of length at most 15 and every starting state, `Run`
returns normally, and afterwards `Read(i)` returns `program[i]` for every index
`i` below the program length. -/
theorem C4_run_loads_program (c : Cpu) (program : List Nat) (hlen : program.length ≤ 15) :
    ∃ (c1 : Cpu) (text : String), c.Run program = Outcome.ok (c1, text) ∧
      ∀ (i : Nat) (hi : i < program.length), c1.mRam.Read i = Outcome.ok (program.get ⟨i, hi⟩) := by
  obtain ⟨ram1, text, hrun, hin, _⟩ := Run_spec c program hlen
  refine ⟨{ c with mRam := ram1 }, text, hrun, ?_⟩
  intro i hi
  rw [Ram.Read_eq_ok_iff ram1 i _ (by omega)]
  show ram1.mRegisters[i]? = some program[i]
  rw [hin i hi, List.getElem?_eq_getElem hi]

/-- Witness of C4: the program of `main` on the fresh machine. -/
theorem C4_run_loads_program_witness :
    mainProgram.length ≤ 15 ∧
      ∃ (c1 : Cpu) (text : String), (fresh Ram.fresh).Run mainProgram = Outcome.ok (c1, text) ∧
        ∀ (i : Nat) (hi : i < mainProgram.length),
          c1.mRam.Read i = Outcome.ok (mainProgram.get ⟨i, hi⟩) :=
  ⟨by decide, C4_run_loads_program (fresh Ram.fresh) mainProgram (by decide)⟩

/-! ## Processor: arithmetic handlers -/

/-- The handler `ADD` on any state: `mTmp` receives the sum narrowed to eight bits and nothing
else changes; the test `mTmp > 0xFF` never succeeds. -/
theorem ADD_eq (c : Cpu) :
    c.ADD = Outcome.ok { c with mTmp := (c.mRegisterX + c.mRegisterY) % 256 } := by
  have hlt : (c.mRegisterX + c.mRegisterY) % 256 < 256 := Nat.mod_lt _ (by decide)
  have hnot : ¬ (c.mRegisterX + c.mRegisterY) % 256 > 0xFF := by omega
  simp only [ADD, hnot, if_false]

/-- The handler `SUB` on any state: `mTmp` receives the difference narrowed to eight bits and
nothing else changes; the test `mTmp < 0x0` never succeeds. -/
theorem SUB_eq (c : Cpu) :
    c.SUB = Outcome.ok
      { c with mTmp := (((c.mRegisterX : Int) - (c.mRegisterY : Int)) % 256).toNat } := by
  have hnot : ¬ (((((c.mRegisterX : Int) - (c.mRegisterY : Int)) % 256).toNat : Nat) : Int) < 0x0 := by
    omega
  simp only [SUB, hnot, if_false]

/-! ## Processor: load and store handlers -/

/-- The handler `LDX` when the read at the stack pointer returns `v`: `Fetched` and
`RegisterX` receive `v`. -/
theorem LDX_of_read (c : Cpu) (v : Nat) (hread : c.mRam.Read c.mStackPointer = Outcome.ok v) :
    c.LDX = Outcome.ok { c with mFetched := v, mRegisterX := v } := by
  simp only [LDX, Fetch, hread]

/-- The handler `LDY` when the read at the stack pointer returns `v`: `Fetched` and
`RegisterY` receive `v`. -/
theorem LDY_of_read (c : Cpu) (v : Nat) (hread : c.mRam.Read c.mStackPointer = Outcome.ok v) :
    c.LDY = Outcome.ok { c with mFetched := v, mRegisterY := v } := by
  simp only [LDY, Fetch, hread]

/-- The handler `STX` when the write at the stack pointer returns the memory `ram1`. -/
theorem STX_of_write (c : Cpu) (ram1 : Ram)
    (hwrite : c.mRam.Write c.mStackPointer c.mRegisterX = Outcome.ok ram1) :
    c.STX = Outcome.ok { c with mRam := ram1 } := by
  simp only [STX, hwrite]

/-- The handler `STY` when the write at the stack pointer returns the memory `ram1`. -/
theorem STY_of_write (c : Cpu) (ram1 : Ram)
    (hwrite : c.mRam.Write c.mStackPointer c.mRegisterY = Outcome.ok ram1) :
    c.STY = Outcome.ok { c with mRam := ram1 } := by
  simp only [STY, hwrite]

/-! ## Processor: the clock step -/

/-- A step whose fetch succeeds: the opcode and the incremented program counter are
stored, then the dispatch table is indexed with the opcode. -/
theorem Clock_of_read (c : Cpu) (v : Nat) (hread : c.mRam.Read c.mProgramCounter = Outcome.ok v) :
    c.Clock =
      match mInstructions[v]? with
      | none => Outcome.undefined
      | some instruction =>
        match instruction.Operation with
        | none => Outcome.ok { c with mOpCode := v, mProgramCounter := (c.mProgramCounter + 1) % 256 }
        | some operation =>
          operation { c with mOpCode := v, mProgramCounter := (c.mProgramCounter + 1) % 256 } := by
  simp only [Clock, hread]

/-- A step whose fetch indexes outside the memory has no defined behaviour. -/
theorem Clock_of_read_undefined (c : Cpu)
    (hread : c.mRam.Read c.mProgramCounter = Outcome.undefined) : c.Clock = Outcome.undefined := by
  simp only [Clock, hread]

/-- A step that fetches a byte from 8 upwards indexes the eight-entry dispatch table
out of range. -/
theorem Clock_of_opcode_ge_8 (c : Cpu) (v : Nat)
    (hread : c.mRam.Read c.mProgramCounter = Outcome.ok v) (hv : 8 ≤ v) :
    c.Clock = Outcome.undefined := by
  have hnone : mInstructions[v]? = none := by
    rw [List.getElem?_eq_none_iff]
    exact hv
  rw [Clock_of_read c v hread, hnone]

/-- A step from a program counter and a stack pointer inside the memory that fetches
an opcode of the table other than `JMP` returns normally with the opcode stored
and the program counter advanced by one. -/
theorem Clock_pc_succ (c : Cpu) (v : Nat) (hpc : c.mProgramCounter ≤ 0xFE)
    (hsp : c.mStackPointer ≤ 0xFE)
    (hread : c.mRam.Read c.mProgramCounter = Outcome.ok v) (hv : v ≤ 0x6) :
    ∃ c1 : Cpu, c.Clock = Outcome.ok c1 ∧ c1.mOpCode = v ∧
      c1.mProgramCounter = c.mProgramCounter + 1 := by
  have hmod : (c.mProgramCounter + 1) % 256 = c.mProgramCounter + 1 :=
    Nat.mod_eq_of_lt (by omega)
  have hsplt : c.mStackPointer < 0xFF := by omega
  have hfetch := Ram.Read_of_lt c.mRam c.mStackPointer hsplt
  rw [Clock_of_read c v hread, hmod]
  interval_cases v
  · exact ⟨_, rfl, rfl, rfl⟩
  · exact ⟨_, LDX_of_read _ _ hfetch, rfl, rfl⟩
  · exact ⟨_, LDY_of_read _ _ hfetch, rfl, rfl⟩
  · obtain ⟨ram1, hw, _⟩ := Ram.Write_of_lt c.mRam c.mStackPointer c.mRegisterX hsplt
    exact ⟨_, STX_of_write _ ram1 hw, rfl, rfl⟩
  · obtain ⟨ram1, hw, _⟩ := Ram.Write_of_lt c.mRam c.mStackPointer c.mRegisterY hsplt
    exact ⟨_, STY_of_write _ ram1 hw, rfl, rfl⟩
  · exact ⟨_, ADD_eq _, rfl, rfl⟩
  · exact ⟨_, SUB_eq _, rfl, rfl⟩

/-- C5 (the code at the failing input): with `RegisterX = 255`, `RegisterY = 1`,
`Overflow = false` and opcode `0x5` at the program counter, the step ends with
`Tmp = 0` (the sum 256 narrowed to eight bits, not 256) and `Overflow` still
false; the handler `ADD` alone gives the same. -/
theorem C5_add_255_1_wraps_to_zero :
    ({ fresh (Ram.ofPrefix [0x5]) with mRegisterX := 255, mRegisterY := 1 } : Cpu).Clock
        = Outcome.ok { fresh (Ram.ofPrefix [0x5]) with
            mRegisterX := 255, mRegisterY := 1, mOverflow := false,
            mOpCode := 0x5, mProgramCounter := 1, mTmp := 0 } ∧
      ({ fresh (Ram.ofPrefix [0x5]) with mRegisterX := 255, mRegisterY := 1 } : Cpu).ADD
        = Outcome.ok { fresh (Ram.ofPrefix [0x5]) with
            mRegisterX := 255, mRegisterY := 1, mOverflow := false, mTmp := 0 } := by
  constructor
  · rw [Clock_of_read _ 0x5 (by decide)]
    exact ADD_eq _
  · exact ADD_eq _

/-- C6 (the code at the failing input): with `RegisterX = 1`, `RegisterY = 2`,
`Underflow = false` and opcode `0x6` at the program counter, the step ends with
`Tmp = 255` (the difference -1 narrowed to eight bits, not -1) and `Underflow`
still false; the handler `SUB` alone gives the same. -/
theorem C6_sub_1_2_wraps_to_255 :
    ({ fresh (Ram.ofPrefix [0x6]) with mRegisterX := 1, mRegisterY := 2 } : Cpu).Clock
        = Outcome.ok { fresh (Ram.ofPrefix [0x6]) with
            mRegisterX := 1, mRegisterY := 2, mUnderflow := false,
            mOpCode := 0x6, mProgramCounter := 1, mTmp := 255 } ∧
      ({ fresh (Ram.ofPrefix [0x6]) with mRegisterX := 1, mRegisterY := 2 } : Cpu).SUB
        = Outcome.ok { fresh (Ram.ofPrefix [0x6]) with
            mRegisterX := 1, mRegisterY := 2, mUnderflow := false, mTmp := 255 } := by
  constructor
  · rw [Clock_of_read _ 0x6 (by decide)]
    exact SUB_eq _
  · exact SUB_eq _

/-- C7: for every state with `RegisterX + RegisterY <= 255`, the handler `ADD`
sets `Tmp` to `RegisterX + RegisterY` and changes nothing else (`Overflow`,
`RegisterX` and `RegisterY` keep their values); and when the byte at the program
counter is `0x5`, the step does the same after storing the opcode and advancing
the program counter. -/
theorem C7_add_without_overflow (c : Cpu) (hsum : c.mRegisterX + c.mRegisterY ≤ 255) :
    c.ADD = Outcome.ok { c with mTmp := c.mRegisterX + c.mRegisterY } ∧
      (c.mRam.Read c.mProgramCounter = Outcome.ok 0x5 →
        c.Clock = Outcome.ok { c with
          mOpCode := 0x5, mProgramCounter := (c.mProgramCounter + 1) % 256,
          mTmp := c.mRegisterX + c.mRegisterY }) := by
  have hmod : (c.mRegisterX + c.mRegisterY) % 256 = c.mRegisterX + c.mRegisterY :=
    Nat.mod_eq_of_lt (by omega)
  constructor
  · rw [ADD_eq, hmod]
  · intro hread
    rw [Clock_of_read c 0x5 hread]
    show ADD _ = _
    rw [ADD_eq]
    simp only [hmod]

/-- Witness of C7: `RegisterX = 1`, `RegisterY = 2`, `Overflow = false` and opcode
`0x5` at address 0 give `Tmp = 3`, `Overflow = false`, `RegisterX = 1`,
`RegisterY = 2`. -/
theorem C7_add_without_overflow_witness :
    (1 + 2 ≤ 255 ∧ (Ram.ofPrefix [0x5]).Read 0 = Outcome.ok 0x5) ∧
      ({ fresh (Ram.ofPrefix [0x5]) with mRegisterX := 1, mRegisterY := 2 } : Cpu).ADD
        = Outcome.ok { fresh (Ram.ofPrefix [0x5]) with
            mRegisterX := 1, mRegisterY := 2, mOverflow := false, mTmp := 3 } ∧
      ({ fresh (Ram.ofPrefix [0x5]) with mRegisterX := 1, mRegisterY := 2 } : Cpu).Clock
        = Outcome.ok { fresh (Ram.ofPrefix [0x5]) with
            mRegisterX := 1, mRegisterY := 2, mOverflow := false,
            mOpCode := 0x5, mProgramCounter := 1, mTmp := 3 } :=
  ⟨⟨by decide, by decide⟩,
    (C7_add_without_overflow
      { fresh (Ram.ofPrefix [0x5]) with mRegisterX := 1, mRegisterY := 2 } (by decide)).1,
    (C7_add_without_overflow
      { fresh (Ram.ofPrefix [0x5]) with mRegisterX := 1, mRegisterY := 2 } (by decide)).2
      (by decide)⟩

/-- C8 (the code at the failing input): `Run` of the one-byte program `[0x8]` on the
fresh machine stores 8 in cell 0; the following step fetches opcode 8 and indexes
the eight-entry dispatch table at position 8, out of range: it is not a `NOP`
step. -/
theorem C8_clock_opcode_8_out_of_range :
    (∃ text : String,
        (fresh Ram.fresh).Run [0x8] = Outcome.ok (fresh (Ram.ofPrefix [0x8]), text)) ∧
      (fresh (Ram.ofPrefix [0x8])).Clock = Outcome.undefined :=
  ⟨⟨_, rfl⟩, Clock_of_opcode_ge_8 _ 0x8 (by decide) (by decide)⟩

/-- C9: for every state in which the byte fetched at the program counter is `0x7`,
the step returns normally; afterwards the program counter is the stack pointer
of the state before the step, whatever the program counter was, and nothing but
`OpCode` and `ProgramCounter` has changed (the stack pointer in particular). -/
theorem C9_jmp_sets_pc_to_sp (c : Cpu)
    (hread : c.mRam.Read c.mProgramCounter = Outcome.ok 0x7) :
    c.Clock = Outcome.ok { c with mOpCode := 0x7, mProgramCounter := c.mStackPointer } := by
  rw [Clock_of_read c 0x7 hread]
  rfl

/-- Witness of C9: opcode `0x7` at address 3, program counter 3, stack pointer 9:
after the step the program counter is 9 and the stack pointer still 9. -/
theorem C9_jmp_sets_pc_to_sp_witness :
    (Ram.ofPrefix [0x0, 0x0, 0x0, 0x7]).Read 3 = Outcome.ok 0x7 ∧
      ({ fresh (Ram.ofPrefix [0x0, 0x0, 0x0, 0x7]) with
          mStackPointer := 9, mProgramCounter := 3 } : Cpu).Clock
        = Outcome.ok { fresh (Ram.ofPrefix [0x0, 0x0, 0x0, 0x7]) with
            mStackPointer := 9, mProgramCounter := 9, mOpCode := 0x7 } :=
  ⟨by decide,
    C9_jmp_sets_pc_to_sp
      { fresh (Ram.ofPrefix [0x0, 0x0, 0x0, 0x7]) with mStackPointer := 9, mProgramCounter := 3 }
      (by decide)⟩

/-- C10 (the code at the failing input): 255 steps of the fresh machine, each a `NOP`
fetched from a zero cell, bring the program counter to `0xFF`; and in every state
whose program counter is `0xFF` the fetch of the next step reads cell 255 of the
255-cell memory, out of bounds: that step stores no opcode and does not wrap the
program counter to `0x00`. -/
theorem C10_clock_at_pc_0xFF_out_of_bounds :
    clockTimes 255 (fresh Ram.fresh)
        = Outcome.ok { fresh Ram.fresh with mProgramCounter := 0xFF } ∧
      ∀ c : Cpu, ({ c with mProgramCounter := 0xFF } : Cpu).Clock = Outcome.undefined :=
  ⟨rfl, fun c => Clock_of_read_undefined _ (Ram.Read_0xFF c.mRam)⟩

end Cpu

/-! ## Frame properties of the memory and of the handlers -/

namespace Ram

/-- Whatever the address, a write that returns normally leaves every other cell as it
was. -/
theorem Write_frame_any (r r1 : Ram) (a v b : Nat) (hb : b ≠ a)
    (hw : r.Write a v = Outcome.ok r1) : r1.mRegisters[b]? = r.mRegisters[b]? := by
  unfold Write at hw
  split at hw
  · split at hw
    · cases hw
      exact List.getElem?_set_ne (Ne.symm hb)
    · cases hw
  · cases hw
    rfl

/-- Two memories with the same content at `b` answer a read at `b` alike. -/
theorem Read_congr (r r1 : Ram) (b : Nat) (h : r1.mRegisters[b]? = r.mRegisters[b]?) :
    r1.Read b = r.Read b := by
  unfold Read
  rw [h]

end Ram

namespace Cpu

/-- A `Fetch` that returns normally has stored the value read at the stack pointer in
`Fetched` and changed nothing else. -/
theorem Fetch_ok (c c1 : Cpu) (h : c.Fetch = Outcome.ok c1) :
    ∃ v : Nat, c.mRam.Read c.mStackPointer = Outcome.ok v ∧ c1 = { c with mFetched := v } := by
  unfold Fetch at h
  cases hread : c.mRam.Read c.mStackPointer with
  | ok v =>
    rw [hread] at h
    cases h
    exact ⟨v, rfl, rfl⟩
  | raised msg v => rw [hread] at h; cases h
  | undefined => rw [hread] at h; cases h
  | outOfFuel => rw [hread] at h; cases h

/-- An `LDX` that returns normally has stored the value read at the stack pointer in
`Fetched` and `RegisterX` and changed nothing else. -/
theorem LDX_ok (c c1 : Cpu) (h : c.LDX = Outcome.ok c1) :
    ∃ v : Nat, c.mRam.Read c.mStackPointer = Outcome.ok v ∧
      c1 = { c with mFetched := v, mRegisterX := v } := by
  unfold LDX at h
  cases hfetch : c.Fetch with
  | ok c2 =>
    rw [hfetch] at h
    obtain ⟨v, hread, hc2⟩ := Fetch_ok c c2 hfetch
    cases h
    subst hc2
    exact ⟨v, hread, rfl⟩
  | raised msg v => rw [hfetch] at h; cases h
  | undefined => rw [hfetch] at h; cases h
  | outOfFuel => rw [hfetch] at h; cases h

/-- An `LDY` that returns normally has stored the value read at the stack pointer in
`Fetched` and `RegisterY` and changed nothing else. -/
theorem LDY_ok (c c1 : Cpu) (h : c.LDY = Outcome.ok c1) :
    ∃ v : Nat, c.mRam.Read c.mStackPointer = Outcome.ok v ∧
      c1 = { c with mFetched := v, mRegisterY := v } := by
  unfold LDY at h
  cases hfetch : c.Fetch with
  | ok c2 =>
    rw [hfetch] at h
    obtain ⟨v, hread, hc2⟩ := Fetch_ok c c2 hfetch
    cases h
    subst hc2
    exact ⟨v, hread, rfl⟩
  | raised msg v => rw [hfetch] at h; cases h
  | undefined => rw [hfetch] at h; cases h
  | outOfFuel => rw [hfetch] at h; cases h

/-- An `STX` that returns normally has replaced the memory by the result of the write
at the stack pointer and changed nothing else. -/
theorem STX_ok (c c1 : Cpu) (h : c.STX = Outcome.ok c1) :
    ∃ ram1 : Ram, c.mRam.Write c.mStackPointer c.mRegisterX = Outcome.ok ram1 ∧
      c1 = { c with mRam := ram1 } := by
  unfold STX at h
  cases hwrite : c.mRam.Write c.mStackPointer c.mRegisterX with
  | ok ram1 =>
    rw [hwrite] at h
    cases h
    exact ⟨ram1, rfl, rfl⟩
  | raised msg v => rw [hwrite] at h; cases h
  | undefined => rw [hwrite] at h; cases h
  | outOfFuel => rw [hwrite] at h; cases h

/-- An `STY` that returns normally has replaced the memory by the result of the write
at the stack pointer and changed nothing else. -/
theorem STY_ok (c c1 : Cpu) (h : c.STY = Outcome.ok c1) :
    ∃ ram1 : Ram, c.mRam.Write c.mStackPointer c.mRegisterY = Outcome.ok ram1 ∧
      c1 = { c with mRam := ram1 } := by
  unfold STY at h
  cases hwrite : c.mRam.Write c.mStackPointer c.mRegisterY with
  | ok ram1 =>
    rw [hwrite] at h
    cases h
    exact ⟨ram1, rfl, rfl⟩
  | raised msg v => rw [hwrite] at h; cases h
  | undefined => rw [hwrite] at h; cases h
  | outOfFuel => rw [hwrite] at h; cases h

/-- A step that returns normally has fetched an opcode of the table and run its
handler on the state with the opcode stored and the program counter
incremented. -/
theorem Clock_ok (c c1 : Cpu) (h : c.Clock = Outcome.ok c1) :
    ∃ v : Nat, c.mRam.Read c.mProgramCounter = Outcome.ok v ∧
      (v = 0x0 ∧ c1 = { c with mOpCode := v, mProgramCounter := (c.mProgramCounter + 1) % 256 } ∨
       v = 0x1 ∧ LDX { c with mOpCode := v, mProgramCounter := (c.mProgramCounter + 1) % 256 }
          = Outcome.ok c1 ∨
       v = 0x2 ∧ LDY { c with mOpCode := v, mProgramCounter := (c.mProgramCounter + 1) % 256 }
          = Outcome.ok c1 ∨
       v = 0x3 ∧ STX { c with mOpCode := v, mProgramCounter := (c.mProgramCounter + 1) % 256 }
          = Outcome.ok c1 ∨
       v = 0x4 ∧ STY { c with mOpCode := v, mProgramCounter := (c.mProgramCounter + 1) % 256 }
          = Outcome.ok c1 ∨
       v = 0x5 ∧ ADD { c with mOpCode := v, mProgramCounter := (c.mProgramCounter + 1) % 256 }
          = Outcome.ok c1 ∨
       v = 0x6 ∧ SUB { c with mOpCode := v, mProgramCounter := (c.mProgramCounter + 1) % 256 }
          = Outcome.ok c1 ∨
       v = 0x7 ∧ JMP { c with mOpCode := v, mProgramCounter := (c.mProgramCounter + 1) % 256 }
          = Outcome.ok c1) := by
  cases hread : c.mRam.Read c.mProgramCounter with
  | ok v =>
    refine ⟨v, rfl, ?_⟩
    by_cases hv : 8 ≤ v
    · rw [Clock_of_opcode_ge_8 c v hread hv] at h
      cases h
    · rw [Clock_of_read c v hread] at h
      have hlt : v < 8 := by omega
      interval_cases v
      · cases h
        exact Or.inl ⟨rfl, rfl⟩
      · exact Or.inr (Or.inl ⟨rfl, h⟩)
      · exact Or.inr (Or.inr (Or.inl ⟨rfl, h⟩))
      · exact Or.inr (Or.inr (Or.inr (Or.inl ⟨rfl, h⟩)))
      · exact Or.inr (Or.inr (Or.inr (Or.inr (Or.inl ⟨rfl, h⟩))))
      · exact Or.inr (Or.inr (Or.inr (Or.inr (Or.inr (Or.inl ⟨rfl, h⟩)))))
      · exact Or.inr (Or.inr (Or.inr (Or.inr (Or.inr (Or.inr (Or.inl ⟨rfl, h⟩))))))
      · exact Or.inr (Or.inr (Or.inr (Or.inr (Or.inr (Or.inr (Or.inr ⟨rfl, h⟩))))))
  | raised msg v => simp only [Clock, hread] at h; cases h
  | undefined => simp only [Clock, hread] at h; cases h
  | outOfFuel => simp only [Clock, hread] at h; cases h

/-- What no step changes: a step that returns normally keeps both flags and the stack
pointer, leaves `Tmp` as it was or below 256, and leaves every memory cell other
than the one at the stack pointer as it was. -/
theorem Clock_frame (c c1 : Cpu) (h : c.Clock = Outcome.ok c1) :
    c1.mOverflow = c.mOverflow ∧ c1.mUnderflow = c.mUnderflow ∧
      c1.mStackPointer = c.mStackPointer ∧ (c1.mTmp = c.mTmp ∨ c1.mTmp ≤ 255) ∧
      ∀ b : Nat, b ≠ c.mStackPointer → c1.mRam.mRegisters[b]? = c.mRam.mRegisters[b]? := by
  obtain ⟨v, _, hcase⟩ := Clock_ok c c1 h
  rcases hcase with ⟨_, h1⟩ | ⟨_, h1⟩ | ⟨_, h1⟩ | ⟨_, h1⟩ | ⟨_, h1⟩ | ⟨_, h1⟩ | ⟨_, h1⟩ | ⟨_, h1⟩
  · subst h1
    exact ⟨rfl, rfl, rfl, Or.inl rfl, fun _ _ => rfl⟩
  · obtain ⟨w, _, h2⟩ := LDX_ok _ c1 h1
    subst h2
    exact ⟨rfl, rfl, rfl, Or.inl rfl, fun _ _ => rfl⟩
  · obtain ⟨w, _, h2⟩ := LDY_ok _ c1 h1
    subst h2
    exact ⟨rfl, rfl, rfl, Or.inl rfl, fun _ _ => rfl⟩
  · obtain ⟨ram1, hw, h2⟩ := STX_ok _ c1 h1
    subst h2
    exact ⟨rfl, rfl, rfl, Or.inl rfl, fun b hb => Ram.Write_frame_any _ ram1 _ _ b hb hw⟩
  · obtain ⟨ram1, hw, h2⟩ := STY_ok _ c1 h1
    subst h2
    exact ⟨rfl, rfl, rfl, Or.inl rfl, fun b hb => Ram.Write_frame_any _ ram1 _ _ b hb hw⟩
  · rw [ADD_eq] at h1
    cases h1
    exact ⟨rfl, rfl, rfl, Or.inr (Nat.le_of_lt_succ (Nat.mod_lt _ (by decide))), fun _ _ => rfl⟩
  · rw [SUB_eq] at h1
    cases h1
    refine ⟨rfl, rfl, rfl, Or.inr ?_, fun _ _ => rfl⟩
    show (((c.mRegisterX : Int) - (c.mRegisterY : Int)) % 256).toNat ≤ 255
    omega
  · cases h1
    exact ⟨rfl, rfl, rfl, Or.inl rfl, fun _ _ => rfl⟩

end Cpu

/-! ## No operation but `Run` throws -/

namespace Ram

/-- The method `Read` never throws. -/
theorem Read_not_raised (r : Ram) (a : Nat) (msg : String) (v : Nat) :
    r.Read a ≠ Outcome.raised msg v := by
  unfold Read
  intro h
  split at h
  · split at h <;> cases h
  · cases h

/-- The method `Write` never throws. -/
theorem Write_not_raised (r : Ram) (a v : Nat) (msg : String) (r1 : Ram) :
    r.Write a v ≠ Outcome.raised msg r1 := by
  unfold Write
  intro h
  split at h
  · split at h <;> cases h
  · cases h

end Ram

namespace Cpu

/-- The method `Fetch` never throws. -/
theorem Fetch_not_raised (c : Cpu) (msg : String) (c1 : Cpu) :
    c.Fetch ≠ Outcome.raised msg c1 := by
  unfold Fetch
  intro h
  cases hread : c.mRam.Read c.mStackPointer with
  | ok v => rw [hread] at h; cases h
  | raised m v => exact Ram.Read_not_raised _ _ m v hread
  | undefined => rw [hread] at h; cases h
  | outOfFuel => rw [hread] at h; cases h

/-- The handler `LDX` never throws. -/
theorem LDX_not_raised (c : Cpu) (msg : String) (c1 : Cpu) :
    c.LDX ≠ Outcome.raised msg c1 := by
  unfold LDX
  intro h
  cases hfetch : c.Fetch with
  | ok c2 => rw [hfetch] at h; cases h
  | raised m c2 => exact Fetch_not_raised c m c2 hfetch
  | undefined => rw [hfetch] at h; cases h
  | outOfFuel => rw [hfetch] at h; cases h

/-- The handler `LDY` never throws. -/
theorem LDY_not_raised (c : Cpu) (msg : String) (c1 : Cpu) :
    c.LDY ≠ Outcome.raised msg c1 := by
  unfold LDY
  intro h
  cases hfetch : c.Fetch with
  | ok c2 => rw [hfetch] at h; cases h
  | raised m c2 => exact Fetch_not_raised c m c2 hfetch
  | undefined => rw [hfetch] at h; cases h
  | outOfFuel => rw [hfetch] at h; cases h

/-- The handler `STX` never throws. -/
theorem STX_not_raised (c : Cpu) (msg : String) (c1 : Cpu) :
    c.STX ≠ Outcome.raised msg c1 := by
  unfold STX
  intro h
  cases hwrite : c.mRam.Write c.mStackPointer c.mRegisterX with
  | ok r1 => rw [hwrite] at h; cases h
  | raised m r1 => exact Ram.Write_not_raised _ _ _ m r1 hwrite
  | undefined => rw [hwrite] at h; cases h
  | outOfFuel => rw [hwrite] at h; cases h

/-- The handler `STY` never throws. -/
theorem STY_not_raised (c : Cpu) (msg : String) (c1 : Cpu) :
    c.STY ≠ Outcome.raised msg c1 := by
  unfold STY
  intro h
  cases hwrite : c.mRam.Write c.mStackPointer c.mRegisterY with
  | ok r1 => rw [hwrite] at h; cases h
  | raised m r1 => exact Ram.Write_not_raised _ _ _ m r1 hwrite
  | undefined => rw [hwrite] at h; cases h
  | outOfFuel => rw [hwrite] at h; cases h

/-- The method `Clock` never throws. -/
theorem Clock_not_raised (c : Cpu) (msg : String) (c1 : Cpu) :
    c.Clock ≠ Outcome.raised msg c1 := by
  intro h
  cases hread : c.mRam.Read c.mProgramCounter with
  | ok v =>
    by_cases hv : 8 ≤ v
    · rw [Clock_of_opcode_ge_8 c v hread hv] at h
      cases h
    · rw [Clock_of_read c v hread] at h
      have hlt : v < 8 := by omega
      interval_cases v
      · cases h
      · exact LDX_not_raised _ msg c1 h
      · exact LDY_not_raised _ msg c1 h
      · exact STX_not_raised _ msg c1 h
      · exact STY_not_raised _ msg c1 h
      · have h1 : ADD _ = Outcome.raised msg c1 := h
        rw [ADD_eq] at h1
        cases h1
      · have h1 : SUB _ = Outcome.raised msg c1 := h
        rw [SUB_eq] at h1
        cases h1
      · cases h
  | raised m v => exact Ram.Read_not_raised _ _ m v hread
  | undefined => simp only [Clock, hread] at h; cases h
  | outOfFuel => simp only [Clock, hread] at h; cases h

/-- A program of 16 bytes or more: `Run` throws in the state it was called in. -/
theorem Run_of_length_ge (c : Cpu) (program : List Nat) (hlen : 16 ≤ program.length) :
    c.Run program = Outcome.raised "Program max size 0x10" (c, "") := by
  have hassert : ¬ 0x10 > program.length := by omega
  simp [Run, ASSERT, hassert]

/-- Whether `Run` returns or throws, the state it ends in differs from the state it
was called in by the memory at most. -/
theorem Run_frame (c : Cpu) (program : List Nat) (s : Cpu × String)
    (h : c.Run program = Outcome.ok s ∨ ∃ msg : String, c.Run program = Outcome.raised msg s) :
    ∃ ram1 : Ram, s.1 = { c with mRam := ram1 } := by
  by_cases hlen : program.length ≤ 15
  · obtain ⟨ram1, text, hrun, _, _⟩ := Run_spec c program hlen
    rw [hrun] at h
    rcases h with h | ⟨msg, h⟩
    · cases h
      exact ⟨ram1, rfl⟩
    · cases h
  · rw [Run_of_length_ge c program (by omega)] at h
    rcases h with h | ⟨msg, h⟩
    · cases h
    · cases h
      exact ⟨c.mRam, rfl⟩

/-- What no call changes: whether a call of a public operation returns or throws, the
state it ends in has the flags and the stack pointer of the state it was called
in, and `Tmp` as it was or below 256. -/
theorem call_frame (c : Cpu) (op : Call) (s : Cpu × String)
    (h : c.call op = Outcome.ok s ∨ ∃ msg : String, c.call op = Outcome.raised msg s) :
    s.1.mOverflow = c.mOverflow ∧ s.1.mUnderflow = c.mUnderflow ∧
      s.1.mStackPointer = c.mStackPointer ∧ (s.1.mTmp = c.mTmp ∨ s.1.mTmp ≤ 255) := by
  cases op with
  | Run program =>
    obtain ⟨ram1, hs⟩ := Run_frame c program s h
    rw [hs]
    exact ⟨rfl, rfl, rfl, Or.inl rfl⟩
  | Clock =>
    simp only [call] at h
    cases hclock : c.Clock with
    | ok c1 =>
      rw [hclock] at h
      obtain ⟨h1, h2, h3, h4, _⟩ := Clock_frame c c1 hclock
      rcases h with h | ⟨msg, h⟩
      · cases h
        exact ⟨h1, h2, h3, h4⟩
      · cases h
    | raised m c1 => exact absurd hclock (Clock_not_raised c m c1)
    | undefined => rw [hclock] at h; rcases h with h | ⟨msg, h⟩ <;> cases h
    | outOfFuel => rw [hclock] at h; rcases h with h | ⟨msg, h⟩ <;> cases h
  | Fetch =>
    simp only [call] at h
    cases hfetch : c.Fetch with
    | ok c1 =>
      rw [hfetch] at h
      obtain ⟨v, _, hc1⟩ := Fetch_ok c c1 hfetch
      rcases h with h | ⟨msg, h⟩
      · cases h
        rw [hc1]
        exact ⟨rfl, rfl, rfl, Or.inl rfl⟩
      · cases h
    | raised m c1 => exact absurd hfetch (Fetch_not_raised c m c1)
    | undefined => rw [hfetch] at h; rcases h with h | ⟨msg, h⟩ <;> cases h
    | outOfFuel => rw [hfetch] at h; rcases h with h | ⟨msg, h⟩ <;> cases h
  | Dump =>
    simp only [call] at h
    rcases h with h | ⟨msg, h⟩
    · cases h
      exact ⟨rfl, rfl, rfl, Or.inl rfl⟩
    · cases h

/-- Along any sequence of calls that all return normally, the flags and the stack
pointer keep their initial values and `Tmp` keeps its initial value or is below
256. -/
theorem calls_frame (ops : List Call) :
    ∀ c0 c : Cpu, calls ops c0 = Outcome.ok c →
      c.mOverflow = c0.mOverflow ∧ c.mUnderflow = c0.mUnderflow ∧
        c.mStackPointer = c0.mStackPointer ∧ (c.mTmp = c0.mTmp ∨ c.mTmp ≤ 255) := by
  induction ops with
  | nil =>
    intro c0 c h
    cases h
    exact ⟨rfl, rfl, rfl, Or.inl rfl⟩
  | cons op ops ih =>
    intro c0 c h
    simp only [calls] at h
    cases hcall : c0.call op with
    | ok s =>
      obtain ⟨c1, text⟩ := s
      rw [hcall] at h
      obtain ⟨h1, h2, h3, h4⟩ := call_frame c0 op (c1, text) (Or.inl hcall)
      obtain ⟨k1, k2, k3, k4⟩ := ih c1 c h
      refine ⟨k1.trans h1, k2.trans h2, k3.trans h3, ?_⟩
      rcases k4 with k4 | k4
      · rcases h4 with h4 | h4
        · exact Or.inl (k4.trans h4)
        · exact Or.inr (by rw [k4]; exact h4)
      · exact Or.inr k4
    | raised msg s =>
      obtain ⟨c1, text⟩ := s
      rw [hcall] at h
      cases h
    | undefined => rw [hcall] at h; cases h
    | outOfFuel => rw [hcall] at h; cases h

/-! ## End to end, frames and sticky flags -/

/-- C11: on the fresh machine, `Run` of `[0x1, 1, 0x2, 2, 0x5]` returns normally with
1 in cell 0, and four steps later (`LDX`, `LDX`, `LDY`, `LDY`, the operand bytes
being fetched as opcodes) the stack pointer is still 0 and `RegisterX` and
`RegisterY` both hold 1, the byte of cell 0. -/
theorem C11_main_program_four_steps :
    ∃ (c1 : Cpu) (text : String),
      (fresh Ram.fresh).Run [0x1, 1, 0x2, 2, 0x5] = Outcome.ok (c1, text) ∧
      c1.mRam.Read 0 = Outcome.ok 1 ∧
      clockTimes 4 c1 = Outcome.ok { fresh (Ram.ofPrefix [0x1, 1, 0x2, 2, 0x5]) with
        mRegisterX := 1, mRegisterY := 1, mStackPointer := 0,
        mFetched := 1, mProgramCounter := 4, mOpCode := 0x2 } :=
  ⟨_, _, rfl, rfl, rfl⟩

/-- C12: for every program of length at most 15, `Run` returns normally with every
processor member (`RegisterX`, `RegisterY`, `Overflow`, `Underflow`, `Fetched`,
`StackPointer`, `ProgramCounter`, `OpCode`, `Tmp`) as it was, and with every
memory cell at an address from the program length on as it was. -/
theorem C12_run_executes_nothing (c : Cpu) (program : List Nat) (hlen : program.length ≤ 15) :
    ∃ (c1 : Cpu) (text : String), c.Run program = Outcome.ok (c1, text) ∧
      c1.mRegisterX = c.mRegisterX ∧ c1.mRegisterY = c.mRegisterY ∧
      c1.mOverflow = c.mOverflow ∧ c1.mUnderflow = c.mUnderflow ∧
      c1.mFetched = c.mFetched ∧ c1.mStackPointer = c.mStackPointer ∧
      c1.mProgramCounter = c.mProgramCounter ∧ c1.mOpCode = c.mOpCode ∧
      c1.mTmp = c.mTmp ∧
      ∀ a : Nat, program.length ≤ a → a ≤ 0xFE → c1.mRam.Read a = c.mRam.Read a := by
  obtain ⟨ram1, text, hrun, _, hout⟩ := Run_spec c program hlen
  exact ⟨{ c with mRam := ram1 }, text, hrun, rfl, rfl, rfl, rfl, rfl, rfl, rfl, rfl, rfl,
    fun a ha _ => Ram.Read_congr c.mRam ram1 a (hout a ha)⟩

/-- Witness of C12: the program of `main` run on a machine whose registers and cells 5, 6
are not zero. -/
theorem C12_run_executes_nothing_witness :
    mainProgram.length ≤ 15 ∧
      ∃ (c1 : Cpu) (text : String),
        ({ fresh (Ram.ofPrefix [9, 9, 9, 9, 9, 7, 8]) with
            mRegisterX := 3, mTmp := 4, mProgramCounter := 2 } : Cpu).Run mainProgram
          = Outcome.ok (c1, text) ∧
        c1.mRegisterX = 3 ∧ c1.mRegisterY = 0 ∧ c1.mOverflow = false ∧ c1.mUnderflow = false ∧
        c1.mFetched = 0 ∧ c1.mStackPointer = 0 ∧ c1.mProgramCounter = 2 ∧ c1.mOpCode = 0 ∧
        c1.mTmp = 4 ∧
        ∀ a : Nat, mainProgram.length ≤ a → a ≤ 0xFE →
          c1.mRam.Read a = (Ram.ofPrefix [9, 9, 9, 9, 9, 7, 8]).Read a :=
  ⟨by decide,
    C12_run_executes_nothing
      { fresh (Ram.ofPrefix [9, 9, 9, 9, 9, 7, 8]) with
          mRegisterX := 3, mTmp := 4, mProgramCounter := 2 }
      mainProgram (by decide)⟩

/-- C13: for every state, the handlers `ADD` and `SUB` return normally and the state
they leave differs from the one before in `Tmp`, `Overflow` and `Underflow` at
most: `RegisterX`, `RegisterY`, `Fetched`, `StackPointer` and the memory are as
they were. The same five hold after a step that fetches opcode `0x5` or `0x6`. -/
theorem C13_add_sub_do_not_write_back (c : Cpu) :
    (∃ c1 : Cpu, c.ADD = Outcome.ok c1 ∧
        c1 = { c with mTmp := c1.mTmp, mOverflow := c1.mOverflow, mUnderflow := c1.mUnderflow } ∧
        c1.mRegisterX = c.mRegisterX ∧ c1.mRegisterY = c.mRegisterY ∧
        c1.mFetched = c.mFetched ∧ c1.mStackPointer = c.mStackPointer ∧ c1.mRam = c.mRam) ∧
      (∃ c1 : Cpu, c.SUB = Outcome.ok c1 ∧
        c1 = { c with mTmp := c1.mTmp, mOverflow := c1.mOverflow, mUnderflow := c1.mUnderflow } ∧
        c1.mRegisterX = c.mRegisterX ∧ c1.mRegisterY = c.mRegisterY ∧
        c1.mFetched = c.mFetched ∧ c1.mStackPointer = c.mStackPointer ∧ c1.mRam = c.mRam) ∧
      ∀ v : Nat, c.mRam.Read c.mProgramCounter = Outcome.ok v → v = 0x5 ∨ v = 0x6 →
        ∃ c1 : Cpu, c.Clock = Outcome.ok c1 ∧
          c1.mRegisterX = c.mRegisterX ∧ c1.mRegisterY = c.mRegisterY ∧
          c1.mFetched = c.mFetched ∧ c1.mStackPointer = c.mStackPointer ∧ c1.mRam = c.mRam := by
  refine ⟨⟨_, ADD_eq c, rfl, rfl, rfl, rfl, rfl, rfl⟩, ⟨_, SUB_eq c, rfl, rfl, rfl, rfl, rfl, rfl⟩, ?_⟩
  intro v hread hv
  rw [Clock_of_read c v hread]
  rcases hv with hv | hv <;> subst hv
  · exact ⟨_, ADD_eq _, rfl, rfl, rfl, rfl, rfl⟩
  · exact ⟨_, SUB_eq _, rfl, rfl, rfl, rfl, rfl⟩

/-- Witness of C13: a step that fetches `ADD` with `RegisterX = 200`, `RegisterY = 100`,
`Fetched = 7`. -/
theorem C13_add_sub_do_not_write_back_witness :
    (Ram.ofPrefix [0x5]).Read 0 = Outcome.ok 0x5 ∧ (0x5 = 0x5 ∨ 0x5 = 0x6) ∧
      ∃ c1 : Cpu,
        ({ fresh (Ram.ofPrefix [0x5]) with
            mRegisterX := 200, mRegisterY := 100, mFetched := 7 } : Cpu).Clock = Outcome.ok c1 ∧
        c1.mRegisterX = 200 ∧ c1.mRegisterY = 100 ∧ c1.mFetched = 7 ∧
        c1.mStackPointer = 0 ∧ c1.mRam = Ram.ofPrefix [0x5] :=
  ⟨by decide, Or.inl rfl,
    (C13_add_sub_do_not_write_back
      { fresh (Ram.ofPrefix [0x5]) with mRegisterX := 200, mRegisterY := 100, mFetched := 7 }).2.2
      0x5 (by decide) (Or.inl rfl)⟩

/-- C14: for every state and every call of a public operation (`Run` with any program,
`Clock` whatever the opcode, `Fetch`, `Dump`), whether the call returns or throws,
`Overflow` true before is true after, and likewise `Underflow`. -/
theorem C14_flags_are_sticky (c : Cpu) (op : Call) (s : Cpu × String)
    (h : c.call op = Outcome.ok s ∨ ∃ msg : String, c.call op = Outcome.raised msg s) :
    (c.mOverflow = true → s.1.mOverflow = true) ∧
      (c.mUnderflow = true → s.1.mUnderflow = true) := by
  obtain ⟨h1, h2, _, _⟩ := call_frame c op s h
  rw [h1, h2]
  exact ⟨id, id⟩

/-- Witness of C14: both flags set, then a step that fetches `SUB` with
`RegisterX = 5`, `RegisterY = 3` (no underflow): both flags are still set. -/
theorem C14_flags_are_sticky_witness :
    (({ fresh (Ram.ofPrefix [0x6]) with
          mRegisterX := 5, mRegisterY := 3, mOverflow := true, mUnderflow := true } : Cpu).call
        Call.Clock
        = Outcome.ok
            ({ fresh (Ram.ofPrefix [0x6]) with
                mRegisterX := 5, mRegisterY := 3, mOverflow := true, mUnderflow := true,
                mOpCode := 0x6, mProgramCounter := 1, mTmp := 2 }, "") ∨
      ∃ msg : String,
        ({ fresh (Ram.ofPrefix [0x6]) with
          mRegisterX := 5, mRegisterY := 3, mOverflow := true, mUnderflow := true } : Cpu).call
        Call.Clock
        = Outcome.raised msg
            ({ fresh (Ram.ofPrefix [0x6]) with
                mRegisterX := 5, mRegisterY := 3, mOverflow := true, mUnderflow := true,
                mOpCode := 0x6, mProgramCounter := 1, mTmp := 2 }, "")) ∧
      ((true = true → true = true) ∧ (true = true → true = true)) :=
  ⟨Or.inl rfl,
    C14_flags_are_sticky
      { fresh (Ram.ofPrefix [0x6]) with
          mRegisterX := 5, mRegisterY := 3, mOverflow := true, mUnderflow := true }
      Call.Clock
      ({ fresh (Ram.ofPrefix [0x6]) with
          mRegisterX := 5, mRegisterY := 3, mOverflow := true, mUnderflow := true,
          mOpCode := 0x6, mProgramCounter := 1, mTmp := 2 }, "")
      (Or.inl rfl)⟩

/-! ## Load and store steps -/

/-- C15: for every state, `v` being the value `Read(StackPointer)` returns: when the
fetched opcode is `0x1` the step ends with `Fetched = v` and `RegisterX = v`, and
when it is `0x2` with `Fetched = v` and `RegisterY = v`; besides `OpCode` and
`ProgramCounter` nothing else changes (`RegisterY` resp. `RegisterX`,
`StackPointer`, the flags, `Tmp` and the memory are as they were). -/
theorem C15_ldx_ldy_load_from_sp (c : Cpu) (v : Nat)
    (hsp : c.mRam.Read c.mStackPointer = Outcome.ok v) :
    (c.mRam.Read c.mProgramCounter = Outcome.ok 0x1 →
        c.Clock = Outcome.ok { c with
          mOpCode := 0x1, mProgramCounter := (c.mProgramCounter + 1) % 256,
          mFetched := v, mRegisterX := v }) ∧
      (c.mRam.Read c.mProgramCounter = Outcome.ok 0x2 →
        c.Clock = Outcome.ok { c with
          mOpCode := 0x2, mProgramCounter := (c.mProgramCounter + 1) % 256,
          mFetched := v, mRegisterY := v }) := by
  constructor
  · intro hread
    rw [Clock_of_read c 0x1 hread]
    exact LDX_of_read _ v hsp
  · intro hread
    rw [Clock_of_read c 0x2 hread]
    exact LDY_of_read _ v hsp

/-- Witness of C15: stack pointer 2 on the memory `[0x1, 0x2, 77]`; the step at program
counter 0 is `LDX` and the step at program counter 1 is `LDY`, both loading 77. -/
theorem C15_ldx_ldy_load_from_sp_witness :
    ((Ram.ofPrefix [0x1, 0x2, 77]).Read 2 = Outcome.ok 77 ∧
      (Ram.ofPrefix [0x1, 0x2, 77]).Read 0 = Outcome.ok 0x1 ∧
      (Ram.ofPrefix [0x1, 0x2, 77]).Read 1 = Outcome.ok 0x2) ∧
      ({ fresh (Ram.ofPrefix [0x1, 0x2, 77]) with mStackPointer := 2 } : Cpu).Clock
        = Outcome.ok { fresh (Ram.ofPrefix [0x1, 0x2, 77]) with
            mStackPointer := 2, mOpCode := 0x1, mProgramCounter := 1,
            mFetched := 77, mRegisterX := 77 } ∧
      ({ fresh (Ram.ofPrefix [0x1, 0x2, 77]) with
          mStackPointer := 2, mProgramCounter := 1 } : Cpu).Clock
        = Outcome.ok { fresh (Ram.ofPrefix [0x1, 0x2, 77]) with
            mStackPointer := 2, mOpCode := 0x2, mProgramCounter := 2,
            mFetched := 77, mRegisterY := 77 } :=
  ⟨⟨by decide, by decide, by decide⟩,
    (C15_ldx_ldy_load_from_sp
      { fresh (Ram.ofPrefix [0x1, 0x2, 77]) with mStackPointer := 2 } 77 (by decide)).1
      (by decide),
    (C15_ldx_ldy_load_from_sp
      { fresh (Ram.ofPrefix [0x1, 0x2, 77]) with mStackPointer := 2, mProgramCounter := 1 } 77
      (by decide)).2 (by decide)⟩

/-- C16: for every state with `StackPointer <= 0xFE`: when the fetched opcode is `0x3`
the step returns normally, changes no processor member but `OpCode` and
`ProgramCounter`, and leaves a memory in which `Read(StackPointer)` returns
`RegisterX` and every other address reads as before; when it is `0x4` the same
with `RegisterY`. -/
theorem C16_stx_sty_store_at_sp (c : Cpu) (hsp : c.mStackPointer ≤ 0xFE) :
    (c.mRam.Read c.mProgramCounter = Outcome.ok 0x3 →
        ∃ ram1 : Ram,
          c.Clock = Outcome.ok { c with
            mRam := ram1, mOpCode := 0x3, mProgramCounter := (c.mProgramCounter + 1) % 256 } ∧
          ram1.Read c.mStackPointer = Outcome.ok c.mRegisterX ∧
          ∀ b : Nat, b ≠ c.mStackPointer → ram1.Read b = c.mRam.Read b) ∧
      (c.mRam.Read c.mProgramCounter = Outcome.ok 0x4 →
        ∃ ram1 : Ram,
          c.Clock = Outcome.ok { c with
            mRam := ram1, mOpCode := 0x4, mProgramCounter := (c.mProgramCounter + 1) % 256 } ∧
          ram1.Read c.mStackPointer = Outcome.ok c.mRegisterY ∧
          ∀ b : Nat, b ≠ c.mStackPointer → ram1.Read b = c.mRam.Read b) := by
  have hlt : c.mStackPointer < 0xFF := by omega
  have hlen : c.mStackPointer < c.mRam.mRegisters.length := by rw [c.mRam.hsize]; exact hlt
  constructor
  · intro hread
    obtain ⟨ram1, hw, hset⟩ := Ram.Write_of_lt c.mRam c.mStackPointer c.mRegisterX hlt
    refine ⟨ram1, ?_, ?_, ?_⟩
    · rw [Clock_of_read c 0x3 hread]
      exact STX_of_write _ ram1 hw
    · rw [Ram.Read_eq_ok_iff ram1 _ _ hlt, hset]
      simp [hlen]
    · intro b hb
      exact Ram.Read_congr c.mRam ram1 b (Ram.Write_frame_any c.mRam ram1 _ _ b hb hw)
  · intro hread
    obtain ⟨ram1, hw, hset⟩ := Ram.Write_of_lt c.mRam c.mStackPointer c.mRegisterY hlt
    refine ⟨ram1, ?_, ?_, ?_⟩
    · rw [Clock_of_read c 0x4 hread]
      exact STY_of_write _ ram1 hw
    · rw [Ram.Read_eq_ok_iff ram1 _ _ hlt, hset]
      simp [hlen]
    · intro b hb
      exact Ram.Read_congr c.mRam ram1 b (Ram.Write_frame_any c.mRam ram1 _ _ b hb hw)

/-- Witness of C16: stack pointer `0xFE`, `RegisterX = 11`, `RegisterY = 22`, on the
memory `[0x3, 0x4]`: the step at program counter 0 is `STX` and the step at
program counter 1 is `STY`. -/
theorem C16_stx_sty_store_at_sp_witness :
    (0xFE ≤ 0xFE ∧ (Ram.ofPrefix [0x3, 0x4]).Read 0 = Outcome.ok 0x3 ∧
      (Ram.ofPrefix [0x3, 0x4]).Read 1 = Outcome.ok 0x4) ∧
      (∃ ram1 : Ram,
        ({ fresh (Ram.ofPrefix [0x3, 0x4]) with
            mStackPointer := 0xFE, mRegisterX := 11, mRegisterY := 22 } : Cpu).Clock
          = Outcome.ok { fresh (Ram.ofPrefix [0x3, 0x4]) with
              mStackPointer := 0xFE, mRegisterX := 11, mRegisterY := 22,
              mRam := ram1, mOpCode := 0x3, mProgramCounter := 1 } ∧
        ram1.Read 0xFE = Outcome.ok 11 ∧
        ∀ b : Nat, b ≠ 0xFE → ram1.Read b = (Ram.ofPrefix [0x3, 0x4]).Read b) ∧
      (∃ ram1 : Ram,
        ({ fresh (Ram.ofPrefix [0x3, 0x4]) with
            mStackPointer := 0xFE, mRegisterX := 11, mRegisterY := 22,
            mProgramCounter := 1 } : Cpu).Clock
          = Outcome.ok { fresh (Ram.ofPrefix [0x3, 0x4]) with
              mStackPointer := 0xFE, mRegisterX := 11, mRegisterY := 22,
              mRam := ram1, mOpCode := 0x4, mProgramCounter := 2 } ∧
        ram1.Read 0xFE = Outcome.ok 22 ∧
        ∀ b : Nat, b ≠ 0xFE → ram1.Read b = (Ram.ofPrefix [0x3, 0x4]).Read b) :=
  ⟨⟨Nat.le_refl _, by decide, by decide⟩,
    (C16_stx_sty_store_at_sp
      { fresh (Ram.ofPrefix [0x3, 0x4]) with
          mStackPointer := 0xFE, mRegisterX := 11, mRegisterY := 22 }
      (Nat.le_refl _)).1 (by decide),
    (C16_stx_sty_store_at_sp
      { fresh (Ram.ofPrefix [0x3, 0x4]) with
          mStackPointer := 0xFE, mRegisterX := 11, mRegisterY := 22, mProgramCounter := 1 }
      (Nat.le_refl _)).2 (by decide)⟩

end Cpu

/-! ## The memory dump -/

namespace Ram

/-- On a byte, the text of `std::bitset<8>` is the zero-padded binary form of the
specification. -/
theorem bitset8_eq_binary8 : ∀ v : Nat, v < 256 → bitset8 v = Spec.binary8 v := by
  decide

/-- The content of a cell, as the optional lookup sees it. -/
theorem getElem?_eq_byteAt (r : Ram) (a : Nat) (ha : a < 0xFF) :
    r.mRegisters[a]? = some (r.byteAt a) := by
  have hlen : a < r.mRegisters.length := by rw [r.hsize]; exact ha
  simp [byteAt, List.getD, List.getElem?_eq_getElem hlen]

/-- In a memory of bytes every cell content is below 256. -/
theorem byteAt_lt (r : Ram) (hbytes : r.Bytes) (a : Nat) : r.byteAt a < 256 := by
  unfold byteAt
  by_cases hlen : a < r.mRegisters.length
  · have hmem : r.mRegisters[a] ∈ r.mRegisters := List.getElem_mem hlen
    have hlt := hbytes _ hmem
    simpa [List.getD, List.getElem?_eq_getElem hlen] using hlt
  · have hnone : r.mRegisters[a]? = none := List.getElem?_eq_none_iff.mpr (by omega)
    simp [List.getD, hnone]

/-- The text of the loop of `Dump`: with an upper bound that is a cell count and
enough fuel, the loop returns normally and has printed the lines of the
addresses from `addr` up to `to_`, in ascending order. -/
theorem dumpLoop_text (r : Ram) (to_ : Nat) (hto : to_ ≤ 0xFF) :
    ∀ fuel addr : Nat, to_ - addr ≤ fuel →
      dumpLoop r to_ fuel addr = Outcome.ok
        (Spec.concat ((List.range' addr (to_ - addr)).map fun a => dumpLine (r.byteAt a) a)) := by
  intro fuel
  induction fuel with
  | zero =>
    intro addr hfuel
    have hnot : ¬ addr < to_ := by omega
    have hzero : to_ - addr = 0 := by omega
    simp [dumpLoop, hnot, hzero, Spec.concat]
  | succ fuel ih =>
    intro addr hfuel
    by_cases hlt : addr < to_
    · have hnext : (addr + 1) % 256 = addr + 1 := Nat.mod_eq_of_lt (by omega)
      have hcount : to_ - addr = (to_ - (addr + 1)) + 1 := by omega
      have hcell := getElem?_eq_byteAt r addr (by omega)
      rw [hcount, List.range'_succ, List.map_cons, Spec.concat]
      simp only [dumpLoop, hlt, if_true, hcell, hnext, ih (addr + 1) (by omega)]
    · have hzero : to_ - addr = 0 := by omega
      simp [dumpLoop, hlt, hzero, Spec.concat]

/-- The fuel of the loop of `Dump` counts its iterations: with fewer than `to_ - addr`
of them allowed, the loop is still running when the fuel is used up. -/
theorem dumpLoop_outOfFuel (r : Ram) (to_ : Nat) (hto : to_ ≤ 0xFF) :
    ∀ fuel addr : Nat, fuel < to_ - addr → dumpLoop r to_ fuel addr = Outcome.outOfFuel := by
  intro fuel
  induction fuel with
  | zero =>
    intro addr hfuel
    have hlt : addr < to_ := by omega
    simp [dumpLoop, hlt]
  | succ fuel ih =>
    intro addr hfuel
    have hlt : addr < to_ := by omega
    have hnext : (addr + 1) % 256 = addr + 1 := Nat.mod_eq_of_lt (by omega)
    have hcell := getElem?_eq_byteAt r addr (by omega)
    simp only [dumpLoop, hlt, if_true, hcell, hnext, ih (addr + 1) (by omega)]

/-- C17: for every memory of bytes, every `from_` and every `to_` in 0..255, `Dump`
returns normally and the text it prints is the one the specification words: one
line per address of `[from_, to_)` in ascending order, each the eight-character
zero-padded binary form of the byte (most significant bit first), one space and
the decimal address, then one blank line; with `from_ >= to_` the text is the
blank line alone. The memory is an argument of `Dump` and not a result: it is
not modified. -/
theorem C17_dump_text (r : Ram) (from_ to_ : Nat) (hto : to_ ≤ 255) (hbytes : r.Bytes) :
    r.Dump from_ to_ = Outcome.ok (Spec.dumpText r.byteAt from_ to_) ∧
      (from_ ≥ to_ → r.Dump from_ to_ = Outcome.ok "\n") := by
  have hloop := dumpLoop_text r to_ hto 256 from_ (by omega)
  have hlines :
      ((List.range' from_ (to_ - from_)).map fun a => dumpLine (r.byteAt a) a)
        = (List.range' from_ (to_ - from_)).map fun a => Spec.dumpLine (r.byteAt a) a := by
    apply List.map_congr_left
    intro a _
    simp only [dumpLine, Spec.dumpLine, bitset8_eq_binary8 _ (byteAt_lt r hbytes a)]
  have hdump : r.Dump from_ to_ = Outcome.ok (Spec.dumpText r.byteAt from_ to_) := by
    simp only [Dump, hloop, hlines, Spec.dumpText]
  refine ⟨hdump, ?_⟩
  intro hge
  have hzero : to_ - from_ = 0 := by omega
  rw [hdump]
  simp only [Spec.dumpText, hzero, List.range'_zero, List.map_nil, Spec.concat]
  rfl

/-- Witness of C17: the dump of addresses 0..2 of the memory `[1, 2, 3]`. -/
theorem C17_dump_text_witness :
    (3 ≤ 255 ∧ (ofPrefix [1, 2, 3]).Bytes) ∧
      ((ofPrefix [1, 2, 3]).Dump 0 3
          = Outcome.ok (Spec.dumpText (ofPrefix [1, 2, 3]).byteAt 0 3) ∧
        (0 ≥ 3 → (ofPrefix [1, 2, 3]).Dump 0 3 = Outcome.ok "\n")) ∧
      Spec.dumpText (ofPrefix [1, 2, 3]).byteAt 0 3
        = "00000001 0\n00000010 1\n00000011 2\n\n" :=
  ⟨⟨by decide, by decide⟩, C17_dump_text (ofPrefix [1, 2, 3]) 0 3 (by decide) (by decide),
    by decide⟩

/-- C20: for every memory and every `from_`, `to_` in 0..255, the loop of `Dump`
finishes within `to_ - from_` iterations (zero when `from_ >= to_`) and not within
fewer, `Dump` returns normally (no index of the loop is outside the array), and
the addresses whose cells the loop has read and printed are those of
`[from_, to_)`, `to_ - from_` of them, each at most 254. -/
theorem C20_dump_loop_iterations (r : Ram) (from_ to_ : Nat) (hfrom : from_ ≤ 255)
    (hto : to_ ≤ 255) :
    (∀ fuel : Nat, to_ - from_ ≤ fuel →
        dumpLoop r to_ fuel from_ = Outcome.ok
          (Spec.concat ((List.range' from_ (to_ - from_)).map fun a => dumpLine (r.byteAt a) a))) ∧
      (∀ fuel : Nat, fuel < to_ - from_ → dumpLoop r to_ fuel from_ = Outcome.outOfFuel) ∧
      (∃ text : String, r.Dump from_ to_ = Outcome.ok text) ∧
      (List.range' from_ (to_ - from_)).length = to_ - from_ ∧
      (∀ a ∈ List.range' from_ (to_ - from_), from_ ≤ a ∧ a < to_ ∧ a ≤ 254) ∧
      to_ - from_ ≤ 255 := by
  refine ⟨fun fuel hfuel => dumpLoop_text r to_ hto fuel from_ hfuel,
    fun fuel hfuel => dumpLoop_outOfFuel r to_ hto fuel from_ hfuel,
    Dump_ok r from_ to_ hto, List.length_range' _ _ _, ?_, by omega⟩
  intro a ha
  rw [List.mem_range'_1] at ha
  omega

/-- Witness of C20: the dump of addresses 1 and 2 of the memory `[1, 2, 3]` takes two
iterations. -/
theorem C20_dump_loop_iterations_witness :
    (1 ≤ 255 ∧ 3 ≤ 255) ∧
      dumpLoop (ofPrefix [1, 2, 3]) 3 2 1 = Outcome.ok "00000010 1\n00000011 2\n" ∧
      dumpLoop (ofPrefix [1, 2, 3]) 3 1 1 = Outcome.outOfFuel ∧
      (∃ text : String, (ofPrefix [1, 2, 3]).Dump 1 3 = Outcome.ok text) :=
  ⟨⟨by decide, by decide⟩,
    ((C20_dump_loop_iterations (ofPrefix [1, 2, 3]) 1 3 (by decide) (by decide)).1 2
      (by decide)).trans (by decide),
    (C20_dump_loop_iterations (ofPrefix [1, 2, 3]) 1 3 (by decide) (by decide)).2.1 1 (by decide),
    (C20_dump_loop_iterations (ofPrefix [1, 2, 3]) 1 3 (by decide) (by decide)).2.2.1⟩

/-- A read inside the backing store returns the content of the cell. -/
theorem Read_eq_byteAt (r : Ram) (a : Nat) (ha : a < 0xFF) :
    r.Read a = Outcome.ok (r.byteAt a) := by
  rw [Read_eq_ok_iff r a _ ha]
  exact getElem?_eq_byteAt r a ha

end Ram

/-! ## States reachable from the fresh machine -/

namespace Cpu

/-- C18: in every state reached from the fresh processor on the fresh memory by a
sequence of `Run`, `Clock`, `Fetch` and `Dump` calls, `Overflow` and `Underflow`
are false and `Tmp` is at most 255; in that state `ADD` leaves
`Tmp = (RegisterX + RegisterY) mod 256` and `SUB` leaves
`Tmp = (RegisterX - RegisterY) mod 256`, and neither sets a flag. -/
theorem C18_flags_never_set (ops : List Call) (c : Cpu)
    (h : calls ops (fresh Ram.fresh) = Outcome.ok c) :
    c.mOverflow = false ∧ c.mUnderflow = false ∧ c.mTmp ≤ 255 ∧
      c.ADD = Outcome.ok { c with
        mTmp := (c.mRegisterX + c.mRegisterY) % 256, mOverflow := false, mUnderflow := false } ∧
      c.SUB = Outcome.ok { c with
        mTmp := (((c.mRegisterX : Int) - (c.mRegisterY : Int)) % 256).toNat,
        mOverflow := false, mUnderflow := false } := by
  obtain ⟨h1, h2, _, h4⟩ := calls_frame ops (fresh Ram.fresh) c h
  have hov : c.mOverflow = false := h1
  have hun : c.mUnderflow = false := h2
  have htmp : c.mTmp ≤ 255 := by
    rcases h4 with h4 | h4
    · rw [h4]
      exact Nat.zero_le _
    · exact h4
  refine ⟨hov, hun, htmp, ?_, ?_⟩
  · rw [ADD_eq]
    simp only [hov, hun]
  · rw [SUB_eq]
    simp only [hov, hun]

/-- Witness of C18: `Run [1, 1, 2, 5]`, a step (`LDX`), `Run [200, 1, 2, 5]`, then three
steps (`LDX`, `LDY`, `ADD`): both registers hold 200, the sum 400 leaves
`Tmp = 144` and `Overflow` is false. -/
theorem C18_flags_never_set_witness :
    calls [Call.Run [0x1, 0x1, 0x2, 0x5], Call.Clock, Call.Run [200, 0x1, 0x2, 0x5],
          Call.Clock, Call.Clock, Call.Clock] (fresh Ram.fresh)
        = Outcome.ok { fresh (Ram.ofPrefix [200, 0x1, 0x2, 0x5]) with
            mRegisterX := 200, mRegisterY := 200, mFetched := 200,
            mProgramCounter := 4, mOpCode := 0x5, mTmp := 144 } ∧
      (false = false ∧ false = false ∧ 144 ≤ 255) :=
  ⟨rfl,
    (C18_flags_never_set
      [Call.Run [0x1, 0x1, 0x2, 0x5], Call.Clock, Call.Run [200, 0x1, 0x2, 0x5],
        Call.Clock, Call.Clock, Call.Clock]
      { fresh (Ram.ofPrefix [200, 0x1, 0x2, 0x5]) with
          mRegisterX := 200, mRegisterY := 200, mFetched := 200,
          mProgramCounter := 4, mOpCode := 0x5, mTmp := 144 } rfl).1,
    (C18_flags_never_set
      [Call.Run [0x1, 0x1, 0x2, 0x5], Call.Clock, Call.Run [200, 0x1, 0x2, 0x5],
        Call.Clock, Call.Clock, Call.Clock]
      { fresh (Ram.ofPrefix [200, 0x1, 0x2, 0x5]) with
          mRegisterX := 200, mRegisterY := 200, mFetched := 200,
          mProgramCounter := 4, mOpCode := 0x5, mTmp := 144 } rfl).2.1,
    (C18_flags_never_set
      [Call.Run [0x1, 0x1, 0x2, 0x5], Call.Clock, Call.Run [200, 0x1, 0x2, 0x5],
        Call.Clock, Call.Clock, Call.Clock]
      { fresh (Ram.ofPrefix [200, 0x1, 0x2, 0x5]) with
          mRegisterX := 200, mRegisterY := 200, mFetched := 200,
          mProgramCounter := 4, mOpCode := 0x5, mTmp := 144 } rfl).2.2.1⟩

/-- C19: in every state reached from a fresh processor (on any memory) by a sequence
of `Run`, `Clock`, `Fetch` and `Dump` calls, `StackPointer` is 0. Consequently, in
such a state: a step that fetches `0x1` or `0x2` loads the content of cell 0; a
step that fetches `0x3` or `0x4` performs the write `Write(0, RegisterX)` resp.
`Write(0, RegisterY)` and no other; a step that fetches `0x7` sets
`ProgramCounter` to 0; and no step that returns changes what a read at an
address other than 0 returns. -/
theorem C19_stack_pointer_stays_zero (ram : Ram) (ops : List Call) (c : Cpu)
    (h : calls ops (fresh ram) = Outcome.ok c) :
    c.mStackPointer = 0 ∧
      (c.mRam.Read c.mProgramCounter = Outcome.ok 0x1 →
        c.Clock = Outcome.ok { c with
          mOpCode := 0x1, mProgramCounter := (c.mProgramCounter + 1) % 256,
          mFetched := c.mRam.byteAt 0, mRegisterX := c.mRam.byteAt 0 }) ∧
      (c.mRam.Read c.mProgramCounter = Outcome.ok 0x2 →
        c.Clock = Outcome.ok { c with
          mOpCode := 0x2, mProgramCounter := (c.mProgramCounter + 1) % 256,
          mFetched := c.mRam.byteAt 0, mRegisterY := c.mRam.byteAt 0 }) ∧
      (c.mRam.Read c.mProgramCounter = Outcome.ok 0x3 →
        ∃ ram1 : Ram, c.mRam.Write 0 c.mRegisterX = Outcome.ok ram1 ∧
          c.Clock = Outcome.ok { c with
            mRam := ram1, mOpCode := 0x3, mProgramCounter := (c.mProgramCounter + 1) % 256 }) ∧
      (c.mRam.Read c.mProgramCounter = Outcome.ok 0x4 →
        ∃ ram1 : Ram, c.mRam.Write 0 c.mRegisterY = Outcome.ok ram1 ∧
          c.Clock = Outcome.ok { c with
            mRam := ram1, mOpCode := 0x4, mProgramCounter := (c.mProgramCounter + 1) % 256 }) ∧
      (c.mRam.Read c.mProgramCounter = Outcome.ok 0x7 →
        c.Clock = Outcome.ok { c with mOpCode := 0x7, mProgramCounter := 0 }) ∧
      (∀ c1 : Cpu, c.Clock = Outcome.ok c1 →
        ∀ b : Nat, b ≠ 0 → c1.mRam.Read b = c.mRam.Read b) := by
  obtain ⟨_, _, h3, _⟩ := calls_frame ops (fresh ram) c h
  have hsp : c.mStackPointer = 0 := h3
  have hread0 : c.mRam.Read c.mStackPointer = Outcome.ok (c.mRam.byteAt 0) := by
    rw [hsp]
    exact Ram.Read_eq_byteAt c.mRam 0 (by decide)
  refine ⟨hsp, ?_, ?_, ?_, ?_, ?_, ?_⟩
  · intro hread
    rw [Clock_of_read c 0x1 hread]
    exact LDX_of_read _ _ hread0
  · intro hread
    rw [Clock_of_read c 0x2 hread]
    exact LDY_of_read _ _ hread0
  · intro hread
    obtain ⟨ram1, hw, _⟩ := Ram.Write_of_lt c.mRam 0 c.mRegisterX (by decide)
    refine ⟨ram1, hw, ?_⟩
    rw [Clock_of_read c 0x3 hread]
    apply STX_of_write
    show c.mRam.Write c.mStackPointer c.mRegisterX = Outcome.ok ram1
    rw [hsp]
    exact hw
  · intro hread
    obtain ⟨ram1, hw, _⟩ := Ram.Write_of_lt c.mRam 0 c.mRegisterY (by decide)
    refine ⟨ram1, hw, ?_⟩
    rw [Clock_of_read c 0x4 hread]
    apply STY_of_write
    show c.mRam.Write c.mStackPointer c.mRegisterY = Outcome.ok ram1
    rw [hsp]
    exact hw
  · intro hread
    rw [Clock_of_read c 0x7 hread]
    show Outcome.ok ({ c with mOpCode := 0x7, mProgramCounter := c.mStackPointer } : Cpu) = _
    rw [hsp]
  · intro c1 hclock b hb
    obtain ⟨_, _, _, _, hframe⟩ := Clock_frame c c1 hclock
    exact Ram.Read_congr c.mRam c1.mRam b (hframe b (by rw [hsp]; exact hb))

/-- Witness of C19: after `Run [0x0, 0x7]` and one step (`NOP`) the program counter is 1
and the stack pointer 0; the next step fetches `0x7` and sets the program counter
to 0. -/
theorem C19_stack_pointer_stays_zero_witness :
    (calls [Call.Run [0x0, 0x7], Call.Clock] (fresh Ram.fresh)
        = Outcome.ok { fresh (Ram.ofPrefix [0x0, 0x7]) with mProgramCounter := 1 } ∧
      (Ram.ofPrefix [0x0, 0x7]).Read 1 = Outcome.ok 0x7) ∧
      (0 : Nat) = 0 ∧
      ({ fresh (Ram.ofPrefix [0x0, 0x7]) with mProgramCounter := 1 } : Cpu).Clock
        = Outcome.ok { fresh (Ram.ofPrefix [0x0, 0x7]) with
            mOpCode := 0x7, mProgramCounter := 0 } :=
  ⟨⟨rfl, by decide⟩,
    (C19_stack_pointer_stays_zero Ram.fresh [Call.Run [0x0, 0x7], Call.Clock]
      { fresh (Ram.ofPrefix [0x0, 0x7]) with mProgramCounter := 1 } rfl).1,
    (C19_stack_pointer_stays_zero Ram.fresh [Call.Run [0x0, 0x7], Call.Clock]
      { fresh (Ram.ofPrefix [0x0, 0x7]) with mProgramCounter := 1 } rfl).2.2.2.2.2.1
      (by decide)⟩

end Cpu

end Turing
